import Mathlib

/-!
Shallow embedding of the crawl scripts of this repository:
  - src/scripts/fetch_team_rosters.py  (roster harvester)
  - src/scripts/fetch_player_data.py   (player harvester)
  - src/scripts/generate_player_names.py (index builder)

The external data provider (nba_api endpoints) is modelled as an
environment of pure functions returning `Option`: `none` models the call
raising an exception.  The persistent store (JSON files on disk keyed by
path) is modelled as an association list; writing a record appends a
key/value pair, and a key presence check (os.path.exists) is a lookup.
The post-write existence verification in the scripts is modelled as
always succeeding (filesystem failure is outside the embedding).
`time.sleep` is modelled by an explicit clock measured in tenths of a
second: a sleep of 0.8s / 0.7s advances the clock by 8 / 7.  Every
provider call, skip and end-of-run report is recorded in a trace,
stamped with the clock value at which it happens.
-/

namespace Crawl

/-- One row of the season-wide player listing returned by
`commonallplayers.CommonAllPlayers` (columns beyond the two used by the
script are irrelevant to it and omitted). -/
structure PlayerRow where
  TEAM_ID : Nat
  PERSON_ID : Nat
  deriving DecidableEq

/-- One entry of a team roster as read back by the index builder; `get`
on a dict returns `None` for a missing column, hence the `Option`s. -/
structure RosterEntry where
  PLAYER_ID : Option Nat
  PLAYER : Option String
  deriving DecidableEq

/-- One row of a player career record from
`playercareerstats.PlayerCareerStats`.  The script only inspects the
`TEAM_ABBREVIATION` column; the remaining statistic columns are
abstracted as an opaque payload. -/
structure CareerRow where
  TEAM_ABBREVIATION : String
  payload : Nat
  deriving DecidableEq

/-- The external data provider: the three endpoint calls consumed by the
scripts.  `none` models the call raising an exception. -/
structure Env where
  listPlayers : Nat → Option (List PlayerRow)
  teamRoster : Nat → Nat → Option (List RosterEntry)
  careerStats : Nat → Option (List CareerRow)

/-- Observable events of a run. -/
inductive Ev where
  | listing : Nat → Bool → Ev
  | roster : Nat → Nat → Bool → Ev
  | career : Nat → Bool → Ev
  | skipR : Nat → Nat → Ev
  | skipP : Nat → Ev
  | report : Nat → Nat → Nat → Ev
  deriving DecidableEq

/-- A trace entry: the clock value (tenths of a second) at which the
event happens, and the event. -/
abbrev TEv := Nat × Ev

/-- The roster store: files `teams/{team_id}_{season}.json`, keyed by
(team id, season starting year). -/
abbrev RosterStore := List ((Nat × Nat) × List RosterEntry)

/-- The career store: files `players/{p_id}.json`, keyed by player id. -/
abbrev PlayerStore := List (Nat × List CareerRow)

/-- Association-list lookup (the os.path.exists / read-back model). -/
def lookupKey {κ β : Type} [DecidableEq κ] (k : κ) : List (κ × β) → Option β
  | [] => none
  | (k2, v) :: rest => if k2 = k then some v else lookupKey k rest

/-- pandas `.unique()`: distinct values in order of first occurrence.
`seen` accumulates the values already emitted. -/
def uniqueFirstAux : List Nat → List Nat → List Nat
  | [], _ => []
  | a :: l, seen => if a ∈ seen then uniqueFirstAux l seen else a :: uniqueFirstAux l (a :: seen)

def uniqueFirst (l : List Nat) : List Nat := uniqueFirstAux l []

/-- `all_players[all_players[TEAM_ID] != 0][TEAM_ID].unique()`: the
team ids of a season listing, dropping the free-agent sentinel 0,
deduplicated keeping first occurrences. -/
def seasonTeams (l : List PlayerRow) : List Nat :=
  uniqueFirst ((l.filter (fun r => r.TEAM_ID ≠ 0)).map (fun r => r.TEAM_ID))

/-- State threaded through the per-team loop of the roster harvester. -/
structure RState where
  store : RosterStore
  clock : Nat
  trace : List TEv
  deriving DecidableEq

/-- The inner loop of `fetch_team_rosters`: for each team id, skip when
the file exists, otherwise fetch the roster, write it, and sleep 0.8s;
a fetch exception is caught per team. -/
def processTeams (env : Env) (year : Nat) : List Nat → RosterStore → Nat → RState
  | [], s, t => ⟨s, t, []⟩
  | tm :: ts, s, t =>
    if (lookupKey (tm, year) s).isSome then
      let r := processTeams env year ts s t
      ⟨r.store, r.clock, (t, Ev.skipR tm year) :: r.trace⟩
    else
      match env.teamRoster tm year with
      | some roster =>
        let r := processTeams env year ts (s ++ [((tm, year), roster)]) (t + 8)
        ⟨r.store, r.clock, (t, Ev.roster tm year true) :: r.trace⟩
      | none =>
        let r := processTeams env year ts s t
        ⟨r.store, r.clock, (t, Ev.roster tm year false) :: r.trace⟩

/-- Result of the roster harvester. -/
structure RRun where
  store : RosterStore
  ids : Finset Nat
  clock : Nat
  trace : List TEv

/-- One iteration of the season loop of `fetch_team_rosters`: fetch the
season listing; on failure log and skip the whole season; on success
run the team loop and then add every PERSON_ID of the listing to the
accumulated id set. -/
def processSeason (env : Env) (year : Nat) (s : RosterStore) (ids : Finset Nat) (t : Nat) :
    RRun :=
  match env.listPlayers year with
  | none => ⟨s, ids, t, [(t, Ev.listing year false)]⟩
  | some l =>
    let r := processTeams env year (seasonTeams l) s t
    ⟨r.store, ids ∪ (l.map (fun p => p.PERSON_ID)).toFinset, r.clock,
      (t, Ev.listing year true) :: r.trace⟩

def runSeasons (env : Env) : List Nat → RosterStore → Finset Nat → Nat → RRun
  | [], s, ids, t => ⟨s, ids, t, []⟩
  | y :: ys, s, ids, t =>
    let r1 := processSeason env y s ids t
    let r2 := runSeasons env ys r1.store r1.ids r1.clock
    ⟨r2.store, r2.ids, r2.clock, r1.trace ++ r2.trace⟩

/-- `fetch_team_rosters(after_year, current_year)`: iterate the seasons
`range(after_year, current_year + 1)` and return the accumulated player
id set. -/
def fetchTeamRosters (env : Env) (after_year current_year : Nat) (s : RosterStore)
    (t : Nat) : RRun :=
  runSeasons env (List.range' after_year (current_year + 1 - after_year)) s ∅ t

/-- The counters of `fetch_player_data`. -/
structure Counters where
  saved : Nat
  skipped : Nat
  errors : Nat
  deriving DecidableEq

/-- `career[career[TEAM_ABBREVIATION] != "TOT"]`: drop the multi-team
trade-summary rows. -/
def filterCareer (rows : List CareerRow) : List CareerRow :=
  rows.filter (fun r => r.TEAM_ABBREVIATION ≠ "TOT")

/-- State threaded through the per-player loop of the player harvester. -/
structure PState where
  store : PlayerStore
  counters : Counters
  clock : Nat
  trace : List TEv
  deriving DecidableEq

/-- The loop of `fetch_player_data`: skip existing files, otherwise
fetch the career record, filter it, write it, and sleep 0.7s; an
exception is caught per player and counted. -/
def processPlayers (env : Env) : List Nat → PlayerStore → Counters → Nat → PState
  | [], s, c, t => ⟨s, c, t, []⟩
  | p :: ps, s, c, t =>
    if (lookupKey p s).isSome then
      let r := processPlayers env ps s { c with skipped := c.skipped + 1 } t
      ⟨r.store, r.counters, r.clock, (t, Ev.skipP p) :: r.trace⟩
    else
      match env.careerStats p with
      | some rows =>
        let r := processPlayers env ps (s ++ [(p, filterCareer rows)])
          { c with saved := c.saved + 1 } (t + 7)
        ⟨r.store, r.counters, r.clock, (t, Ev.career p true) :: r.trace⟩
      | none =>
        let r := processPlayers env ps s { c with errors := c.errors + 1 } t
        ⟨r.store, r.counters, r.clock, (t, Ev.career p false) :: r.trace⟩

/-- Result of the player harvester.  `ret` is the value the Python
function returns to its caller: `fetch_player_data` has no return
statement, so it is `none`; the final counters appear only in the
end-of-run summary it prints, modelled by the trailing report event. -/
structure PRun where
  store : PlayerStore
  clock : Nat
  trace : List TEv
  ret : Option Counters

def fetchPlayerData (env : Env) (player_ids : List Nat) (s : PlayerStore) (t : Nat) : PRun :=
  let r := processPlayers env player_ids s ⟨0, 0, 0⟩ t
  ⟨r.store, r.clock,
    r.trace ++ [(r.clock, Ev.report r.counters.saved r.counters.skipped r.counters.errors)],
    none⟩

/-- One step of `generate_player_names.py`: given one roster entry, add
its id/name pair when both are truthy (a Python int is truthy iff
nonzero, a string iff nonempty, `None` is falsy) and the id is not
already a key. -/
def addEntry (m : List (Nat × String)) (e : RosterEntry) : List (Nat × String) :=
  match e.PLAYER_ID, e.PLAYER with
  | some pid, some nm =>
    if pid ≠ 0 ∧ nm ≠ "" then
      if (lookupKey pid m).isSome then m else m ++ [(pid, nm)]
    else m
  | _, _ => m

/-- The index builder: scan every stored roster record in scan order and
accumulate the id-to-name mapping. -/
def playerNames (records : List (List RosterEntry)) : List (Nat × String) :=
  records.foldl (fun m roster => roster.foldl addEntry m) []

/-- Whether a roster entry is a hit for player id `p`: both fields
present and truthy and the id equal to `p`; if so, its name. -/
def entryHit (p : Nat) (e : RosterEntry) : Option String :=
  match e.PLAYER_ID, e.PLAYER with
  | some pid, some nm => if pid ≠ 0 ∧ nm ≠ "" ∧ pid = p then some nm else none
  | _, _ => none

/-- Follows the spec wording for the index invariant: the name of the
first-encountered entry for `p` whose id and name are both present and
truthy, across the scan order.  Comparison definition for the
first-write-wins claim. -/
def firstEncounteredName (records : List (List RosterEntry)) (p : Nat) : Option String :=
  records.flatten.findSome? (entryHit p)

/-- How far the clock advances right after an event: 0.8s after a
successful roster fetch, 0.7s after a successful career fetch, nothing
otherwise. -/
def evStep : Ev → Nat
  | Ev.roster _ _ true => 8
  | Ev.career _ true => 7
  | _ => 0

def isSkipEv : Ev → Bool
  | Ev.skipR _ _ => true
  | Ev.skipP _ => true
  | _ => false

/-- Relation between consecutive trace entries: the next event happens
no earlier than the pause the previous event mandates, and a skip lets
no time pass at all. -/
def stepRel (x y : TEv) : Prop :=
  x.1 + evStep x.2 ≤ y.1 ∧ (isSkipEv x.2 = true → y.1 = x.1)

/-- Clock values of the successful roster fetches of a trace. -/
def rosterOkTimes (tr : List TEv) : List Nat :=
  tr.filterMap (fun te => match te.2 with
    | Ev.roster _ _ true => some te.1
    | _ => none)

/-- Clock values of the successful career fetches of a trace. -/
def careerOkTimes (tr : List TEv) : List Nat :=
  tr.filterMap (fun te => match te.2 with
    | Ev.career _ true => some te.1
    | _ => none)

/-- Clock values of every successful external fetch of a trace
(listing, roster or career). -/
def fetchOkTimes (tr : List TEv) : List Nat :=
  tr.filterMap (fun te => match te.2 with
    | Ev.listing _ true => some te.1
    | Ev.roster _ _ true => some te.1
    | Ev.career _ true => some te.1
    | _ => none)

/-- Number of external provider calls in a trace, successful or not. -/
def externCalls (tr : List TEv) : Nat :=
  tr.countP (fun te => match te.2 with
    | Ev.listing _ _ => true
    | Ev.roster _ _ _ => true
    | Ev.career _ _ => true
    | _ => false)

/-- Number of roster fetch calls in a trace, successful or not. -/
def rosterCalls (tr : List TEv) : Nat :=
  tr.countP (fun te => match te.2 with
    | Ev.roster _ _ _ => true
    | _ => false)

/-- The player unit an event concerns, for the player harvester. -/
def eventUnit : Ev → Option Nat
  | Ev.skipP p => some p
  | Ev.career p _ => some p
  | _ => none

/-- The units of the failed career fetches of a trace, in order. -/
def errUnits (tr : List TEv) : List Nat :=
  tr.filterMap (fun te => match te.2 with
    | Ev.career p false => some p
    | _ => none)

def savedEvs (tr : List TEv) : Nat :=
  tr.countP (fun te => match te.2 with
    | Ev.career _ true => true
    | _ => false)

def skipEvs (tr : List TEv) : Nat :=
  tr.countP (fun te => match te.2 with
    | Ev.skipP _ => true
    | _ => false)

def errEvs (tr : List TEv) : Nat :=
  tr.countP (fun te => match te.2 with
    | Ev.career _ false => true
    | _ => false)

/-- Concrete provider for counterexamples and witnesses: every call
succeeds; season 2025 lists one player (person 10) on team 1, team
rosters are empty, and player 5 has a TOT row followed by a LAL row. -/
def envW : Env where
  listPlayers := fun _ => some [⟨1, 10⟩]
  teamRoster := fun _ _ => some []
  careerStats := fun p =>
    if p = 9 then none else some [⟨"TOT", 1⟩, ⟨"LAL", 2⟩]

/-- Concrete provider whose season listings are empty: a run issues the
listing call and nothing else. -/
def envE : Env where
  listPlayers := fun _ => some []
  teamRoster := fun _ _ => some []
  careerStats := fun _ => some []

end Crawl

namespace Crawl

theorem lookupKey_append {κ β : Type} [DecidableEq κ] (k : κ) (l1 l2 : List (κ × β)) :
    lookupKey k (l1 ++ l2) = (lookupKey k l1).or (lookupKey k l2) := by
  induction l1 with
  | nil => simp [lookupKey]
  | cons kv rest ih =>
    obtain ⟨k2, v⟩ := kv
    by_cases h : k2 = k <;> simp [lookupKey, h, ih]

theorem lookupKey_mono_append {κ β : Type} [DecidableEq κ] (k : κ) (l1 l2 : List (κ × β))
    (v : β) (h : lookupKey k l1 = some v) : lookupKey k (l1 ++ l2) = some v := by
  rw [lookupKey_append, h]
  rfl

theorem lookupKey_append_other {κ β : Type} [DecidableEq κ] (k k2 : κ) (l : List (κ × β))
    (v : β) (h : k2 ≠ k) : lookupKey k (l ++ [(k2, v)]) = lookupKey k l := by
  rw [lookupKey_append]
  simp [lookupKey, h]

theorem lookupKey_append_self {κ β : Type} [DecidableEq κ] (k : κ) (l : List (κ × β))
    (v : β) (h : lookupKey k l = none) : lookupKey k (l ++ [(k, v)]) = some v := by
  rw [lookupKey_append, h]
  simp [lookupKey, Option.or]

theorem mem_of_mem_uniqueFirstAux (x : Nat) :
    ∀ (l seen : List Nat), x ∈ uniqueFirstAux l seen → x ∈ l := by
  intro l
  induction l with
  | nil => intro seen h; simp [uniqueFirstAux] at h
  | cons a l ih =>
    intro seen h
    by_cases ha : a ∈ seen
    · simp only [uniqueFirstAux, if_pos ha] at h
      exact List.mem_cons_of_mem a (ih _ h)
    · simp only [uniqueFirstAux, if_neg ha, List.mem_cons] at h
      rcases h with h | h
      · exact h ▸ List.mem_cons_self a l
      · exact List.mem_cons_of_mem a (ih _ h)

theorem not_mem_uniqueFirstAux_of_mem_seen (x : Nat) :
    ∀ (l seen : List Nat), x ∈ seen → x ∉ uniqueFirstAux l seen := by
  intro l
  induction l with
  | nil => intro seen _; simp [uniqueFirstAux]
  | cons a l ih =>
    intro seen hx
    by_cases ha : a ∈ seen
    · simp only [uniqueFirstAux, if_pos ha]
      exact ih seen hx
    · simp only [uniqueFirstAux, if_neg ha, List.mem_cons, not_or]
      constructor
      · rintro rfl; exact ha hx
      · exact ih (a :: seen) (List.mem_cons_of_mem a hx)

theorem nodup_uniqueFirstAux : ∀ (l seen : List Nat), (uniqueFirstAux l seen).Nodup := by
  intro l
  induction l with
  | nil => intro seen; simp [uniqueFirstAux]
  | cons a l ih =>
    intro seen
    by_cases ha : a ∈ seen
    · simpa only [uniqueFirstAux, if_pos ha] using ih seen
    · simp only [uniqueFirstAux, if_neg ha, List.nodup_cons]
      exact ⟨not_mem_uniqueFirstAux_of_mem_seen a l (a :: seen) (List.mem_cons_self a seen),
        ih (a :: seen)⟩

theorem seasonTeams_nodup (l : List PlayerRow) : (seasonTeams l).Nodup :=
  nodup_uniqueFirstAux _ _

theorem seasonTeams_ne_zero (l : List PlayerRow) (tm : Nat) (h : tm ∈ seasonTeams l) :
    tm ≠ 0 := by
  have hm := mem_of_mem_uniqueFirstAux tm _ _ h
  simp only [List.mem_map, List.mem_filter] at hm
  obtain ⟨r, ⟨_, hr⟩, rfl⟩ := hm
  simpa using hr

theorem processTeams_mono (env : Env) (year : Nat) :
    ∀ (ts : List Nat) (s : RosterStore) (t : Nat) (k : Nat × Nat) (v : List RosterEntry),
      lookupKey k s = some v → lookupKey k (processTeams env year ts s t).store = some v := by
  intro ts
  induction ts with
  | nil => intro s t k v h; simpa [processTeams] using h
  | cons tm ts ih =>
    intro s t k v h
    cases hp : (lookupKey (tm, year) s).isSome with
    | true => simpa only [processTeams, hp, if_true] using ih s t k v h
    | false =>
      cases hr : env.teamRoster tm year with
      | some roster =>
        simp only [processTeams, hp, Bool.false_eq_true, if_false, hr]
        exact ih _ _ k v (lookupKey_mono_append k s _ v h)
      | none =>
        simp only [processTeams, hp, Bool.false_eq_true, if_false, hr]
        exact ih s t k v h

theorem processTeams_mono_isSome (env : Env) (year : Nat) (ts : List Nat) (s : RosterStore)
    (t : Nat) (k : Nat × Nat) (h : (lookupKey k s).isSome) :
    (lookupKey k (processTeams env year ts s t).store).isSome := by
  obtain ⟨v, hv⟩ := Option.isSome_iff_exists.mp h
  rw [processTeams_mono env year ts s t k v hv]
  rfl

theorem processTeams_complete (env : Env) (year : Nat) :
    ∀ (ts : List Nat) (s : RosterStore) (t : Nat) (tm : Nat), tm ∈ ts →
      (env.teamRoster tm year).isSome →
      (lookupKey (tm, year) (processTeams env year ts s t).store).isSome := by
  intro ts
  induction ts with
  | nil => intro s t tm h; simp at h
  | cons tm0 ts ih =>
    intro s t tm hmem hr
    rcases List.mem_cons.mp hmem with rfl | hmem
    · cases hp : (lookupKey (tm, year) s).isSome with
      | true =>
        simp only [processTeams, hp, if_true]
        exact processTeams_mono_isSome env year ts s t (tm, year) hp
      | false =>
        obtain ⟨roster, hrr⟩ := Option.isSome_iff_exists.mp hr
        simp only [processTeams, hp, Bool.false_eq_true, if_false, hrr]
        refine processTeams_mono_isSome env year ts _ _ (tm, year) ?_
        rw [lookupKey_append_self (tm, year) s roster (by
          cases hq : lookupKey (tm, year) s
          · rfl
          · rw [hq] at hp; simp at hp)]
        rfl
    · cases hp : (lookupKey (tm0, year) s).isSome with
      | true => simp only [processTeams, hp, if_true]; exact ih s t tm hmem hr
      | false =>
        cases hrr : env.teamRoster tm0 year with
        | some roster =>
          simp only [processTeams, hp, Bool.false_eq_true, if_false, hrr]
          exact ih _ _ tm hmem hr
        | none =>
          simp only [processTeams, hp, Bool.false_eq_true, if_false, hrr]
          exact ih s t tm hmem hr

theorem processTeams_noop (env : Env) (year : Nat) :
    ∀ (ts : List Nat) (s : RosterStore) (t : Nat),
      (∀ tm ∈ ts, (env.teamRoster tm year).isSome → (lookupKey (tm, year) s).isSome) →
      (processTeams env year ts s t).store = s := by
  intro ts
  induction ts with
  | nil => intro s t _; rfl
  | cons tm ts ih =>
    intro s t h
    cases hp : (lookupKey (tm, year) s).isSome with
    | true =>
      simp only [processTeams, hp, if_true]
      exact ih s t (fun tm2 hm => h tm2 (List.mem_cons_of_mem tm hm))
    | false =>
      cases hrr : env.teamRoster tm year with
      | some roster =>
        exfalso
        have := h tm (List.mem_cons_self tm ts) (by rw [hrr]; rfl)
        rw [hp] at this
        exact Bool.false_ne_true this
      | none =>
        simp only [processTeams, hp, Bool.false_eq_true, if_false, hrr]
        exact ih s t (fun tm2 hm => h tm2 (List.mem_cons_of_mem tm hm))

theorem processTeams_nocalls (env : Env) (year : Nat) :
    ∀ (ts : List Nat) (s : RosterStore) (t : Nat),
      (∀ tm ∈ ts, (lookupKey (tm, year) s).isSome) →
      rosterCalls (processTeams env year ts s t).trace = 0 := by
  intro ts
  induction ts with
  | nil => intro s t _; rfl
  | cons tm ts ih =>
    intro s t h
    have hp := h tm (List.mem_cons_self tm ts)
    simp only [processTeams, hp, if_true]
    simp only [rosterCalls, List.countP_cons]
    simp only [rosterCalls] at ih
    rw [ih s t (fun tm2 hm => h tm2 (List.mem_cons_of_mem tm hm))]
    rfl

end Crawl

namespace Crawl

theorem processSeason_mono (env : Env) (y : Nat) (s : RosterStore) (ids : Finset Nat)
    (t : Nat) (k : Nat × Nat) (v : List RosterEntry) (h : lookupKey k s = some v) :
    lookupKey k (processSeason env y s ids t).store = some v := by
  cases hl : env.listPlayers y with
  | none => simpa [processSeason, hl] using h
  | some l =>
    simp only [processSeason, hl]
    exact processTeams_mono env y (seasonTeams l) s t k v h

theorem runSeasons_mono (env : Env) :
    ∀ (ys : List Nat) (s : RosterStore) (ids : Finset Nat) (t : Nat) (k : Nat × Nat)
      (v : List RosterEntry), lookupKey k s = some v →
      lookupKey k (runSeasons env ys s ids t).store = some v := by
  intro ys
  induction ys with
  | nil => intro s ids t k v h; simpa [runSeasons] using h
  | cons y ys ih =>
    intro s ids t k v h
    simp only [runSeasons]
    exact ih _ _ _ k v (processSeason_mono env y s ids t k v h)

theorem runSeasons_mono_isSome (env : Env) (ys : List Nat) (s : RosterStore)
    (ids : Finset Nat) (t : Nat) (k : Nat × Nat) (h : (lookupKey k s).isSome) :
    (lookupKey k (runSeasons env ys s ids t).store).isSome := by
  obtain ⟨v, hv⟩ := Option.isSome_iff_exists.mp h
  rw [runSeasons_mono env ys s ids t k v hv]
  rfl

theorem runSeasons_complete (env : Env) :
    ∀ (ys : List Nat) (s : RosterStore) (ids : Finset Nat) (t : Nat) (y : Nat), y ∈ ys →
      ∀ l, env.listPlayers y = some l → ∀ tm ∈ seasonTeams l,
      (env.teamRoster tm y).isSome →
      (lookupKey (tm, y) (runSeasons env ys s ids t).store).isSome := by
  intro ys
  induction ys with
  | nil => intro s ids t y h; simp at h
  | cons y0 ys ih =>
    intro s ids t y hmem l hl tm htm hr
    rcases List.mem_cons.mp hmem with rfl | hmem
    · simp only [runSeasons]
      refine runSeasons_mono_isSome env ys _ _ _ (tm, y) ?_
      simp only [processSeason, hl]
      exact processTeams_complete env y (seasonTeams l) s t tm htm hr
    · simp only [runSeasons]
      exact ih _ _ _ y hmem l hl tm htm hr

theorem processSeason_noop (env : Env) (y : Nat) (s : RosterStore) (ids : Finset Nat)
    (t : Nat)
    (h : ∀ l, env.listPlayers y = some l → ∀ tm ∈ seasonTeams l,
      (env.teamRoster tm y).isSome → (lookupKey (tm, y) s).isSome) :
    (processSeason env y s ids t).store = s := by
  cases hl : env.listPlayers y with
  | none => simp [processSeason, hl]
  | some l =>
    simp only [processSeason, hl]
    exact processTeams_noop env y (seasonTeams l) s t (h l hl)

theorem runSeasons_noop (env : Env) :
    ∀ (ys : List Nat) (s : RosterStore) (ids : Finset Nat) (t : Nat),
      (∀ y ∈ ys, ∀ l, env.listPlayers y = some l → ∀ tm ∈ seasonTeams l,
        (env.teamRoster tm y).isSome → (lookupKey (tm, y) s).isSome) →
      (runSeasons env ys s ids t).store = s := by
  intro ys
  induction ys with
  | nil => intro s ids t _; rfl
  | cons y ys ih =>
    intro s ids t h
    simp only [runSeasons]
    have hs : (processSeason env y s ids t).store = s :=
      processSeason_noop env y s ids t (h y (List.mem_cons_self y ys))
    rw [hs]
    exact ih s _ _ (fun y2 hm => h y2 (List.mem_cons_of_mem y hm))

theorem runSeasons_nocalls (env : Env) :
    ∀ (ys : List Nat) (s : RosterStore) (ids : Finset Nat) (t : Nat),
      (∀ y ∈ ys, ∀ l, env.listPlayers y = some l → ∀ tm ∈ seasonTeams l,
        (lookupKey (tm, y) s).isSome) →
      rosterCalls (runSeasons env ys s ids t).trace = 0 := by
  intro ys
  induction ys with
  | nil => intro s ids t _; rfl
  | cons y ys ih =>
    intro s ids t h
    simp only [runSeasons]
    have hs : (processSeason env y s ids t).store = s :=
      processSeason_noop env y s ids t
        (fun l hl tm htm _ => h y (List.mem_cons_self y ys) l hl tm htm)
    have h1 : rosterCalls (processSeason env y s ids t).trace = 0 := by
      cases hl : env.listPlayers y with
      | none => simp [processSeason, hl, rosterCalls]
      | some l =>
        simp only [processSeason, hl]
        simp only [rosterCalls, List.countP_cons]
        have := processTeams_nocalls env y (seasonTeams l) s t
          (fun tm htm => h y (List.mem_cons_self y ys) l hl tm htm)
        simp only [rosterCalls] at this
        rw [this]
        rfl
    simp only [rosterCalls, List.countP_append] at *
    rw [h1, hs, ih s _ _ (fun y2 hm => h y2 (List.mem_cons_of_mem y hm))]

theorem processTeams_roster_team_mem (env : Env) (year : Nat) :
    ∀ (ts : List Nat) (s : RosterStore) (t : Nat) (te : TEv),
      te ∈ (processTeams env year ts s t).trace →
      ∀ tm y2 ok, te.2 = Ev.roster tm y2 ok → tm ∈ ts ∧ y2 = year := by
  intro ts
  induction ts with
  | nil => intro s t te h; simp [processTeams] at h
  | cons tm0 ts ih =>
    intro s t te h tm y2 ok he
    cases hp : (lookupKey (tm0, year) s).isSome with
    | true =>
      simp only [processTeams, hp, if_true, List.mem_cons] at h
      rcases h with rfl | h
      · simp at he
      · obtain ⟨hm, hy⟩ := ih s t te h tm y2 ok he
        exact ⟨List.mem_cons_of_mem tm0 hm, hy⟩
    | false =>
      cases hr : env.teamRoster tm0 year with
      | some roster =>
        simp only [processTeams, hp, Bool.false_eq_true, if_false, hr, List.mem_cons] at h
        rcases h with rfl | h
        · simp only at he
          obtain ⟨h1, h2, _⟩ := Ev.roster.inj he
          exact ⟨h1 ▸ List.mem_cons_self tm0 ts, h2.symm⟩
        · obtain ⟨hm, hy⟩ := ih _ _ te h tm y2 ok he
          exact ⟨List.mem_cons_of_mem tm0 hm, hy⟩
      | none =>
        simp only [processTeams, hp, Bool.false_eq_true, if_false, hr, List.mem_cons] at h
        rcases h with rfl | h
        · simp only at he
          obtain ⟨h1, h2, _⟩ := Ev.roster.inj he
          exact ⟨h1 ▸ List.mem_cons_self tm0 ts, h2.symm⟩
        · obtain ⟨hm, hy⟩ := ih s t te h tm y2 ok he
          exact ⟨List.mem_cons_of_mem tm0 hm, hy⟩

theorem runSeasons_no_zero_roster (env : Env) :
    ∀ (ys : List Nat) (s : RosterStore) (ids : Finset Nat) (t : Nat) (te : TEv),
      te ∈ (runSeasons env ys s ids t).trace →
      ∀ y2 ok, te.2 ≠ Ev.roster 0 y2 ok := by
  intro ys
  induction ys with
  | nil => intro s ids t te h; simp [runSeasons] at h
  | cons y ys ih =>
    intro s ids t te h y2 ok
    simp only [runSeasons, List.mem_append] at h
    rcases h with h | h
    · cases hl : env.listPlayers y with
      | none =>
        simp only [processSeason, hl, List.mem_singleton] at h
        subst h
        simp
      | some l =>
        simp only [processSeason, hl, List.mem_cons] at h
        rcases h with rfl | h
        · simp
        · intro he
          obtain ⟨hm, _⟩ := processTeams_roster_team_mem env y (seasonTeams l) s t te h 0 y2 ok he
          exact seasonTeams_ne_zero l 0 hm rfl
    · exact ih _ _ _ te h y2 ok

theorem processTeams_frame (env : Env) (year : Nat) :
    ∀ (ts : List Nat) (s : RosterStore) (t : Nat) (k : Nat × Nat),
      (∀ tm ∈ ts, (tm, year) ≠ k) →
      lookupKey k (processTeams env year ts s t).store = lookupKey k s := by
  intro ts
  induction ts with
  | nil => intro s t k _; rfl
  | cons tm0 ts ih =>
    intro s t k h
    cases hp : (lookupKey (tm0, year) s).isSome with
    | true =>
      simp only [processTeams, hp, if_true]
      exact ih s t k (fun tm hm => h tm (List.mem_cons_of_mem tm0 hm))
    | false =>
      cases hr : env.teamRoster tm0 year with
      | some roster =>
        simp only [processTeams, hp, Bool.false_eq_true, if_false, hr]
        rw [ih _ (t + 8) k (fun tm hm => h tm (List.mem_cons_of_mem tm0 hm))]
        exact lookupKey_append_other k (tm0, year) s roster
          (h tm0 (List.mem_cons_self tm0 ts))
      | none =>
        simp only [processTeams, hp, Bool.false_eq_true, if_false, hr]
        exact ih s t k (fun tm hm => h tm (List.mem_cons_of_mem tm0 hm))

theorem runSeasons_zero_frame (env : Env) :
    ∀ (ys : List Nat) (s : RosterStore) (ids : Finset Nat) (t : Nat) (y2 : Nat),
      lookupKey (0, y2) (runSeasons env ys s ids t).store = lookupKey (0, y2) s := by
  intro ys
  induction ys with
  | nil => intro s ids t y2; rfl
  | cons y ys ih =>
    intro s ids t y2
    simp only [runSeasons]
    rw [ih]
    cases hl : env.listPlayers y with
    | none => simp [processSeason, hl]
    | some l =>
      simp only [processSeason, hl]
      exact processTeams_frame env y (seasonTeams l) s t (0, y2)
        (fun tm hm => by
          intro he
          exact seasonTeams_ne_zero l tm hm (congrArg Prod.fst he))

end Crawl

namespace Crawl

theorem processSeason_ids_mono (env : Env) (y : Nat) (s : RosterStore) (ids : Finset Nat)
    (t : Nat) (pid : Nat) (h : pid ∈ ids) : pid ∈ (processSeason env y s ids t).ids := by
  cases hl : env.listPlayers y with
  | none => simpa [processSeason, hl] using h
  | some l =>
    simp only [processSeason, hl, Finset.mem_union]
    exact Or.inl h

theorem runSeasons_ids_mono (env : Env) :
    ∀ (ys : List Nat) (s : RosterStore) (ids : Finset Nat) (t : Nat) (pid : Nat),
      pid ∈ ids → pid ∈ (runSeasons env ys s ids t).ids := by
  intro ys
  induction ys with
  | nil => intro s ids t pid h; simpa [runSeasons] using h
  | cons y ys ih =>
    intro s ids t pid h
    simp only [runSeasons]
    exact ih _ _ _ pid (processSeason_ids_mono env y s ids t pid h)

theorem runSeasons_ids_of_mem (env : Env) :
    ∀ (ys : List Nat) (s : RosterStore) (ids : Finset Nat) (t : Nat) (y : Nat), y ∈ ys →
      ∀ l, env.listPlayers y = some l → ∀ r ∈ l,
      r.PERSON_ID ∈ (runSeasons env ys s ids t).ids := by
  intro ys
  induction ys with
  | nil => intro s ids t y h; simp at h
  | cons y0 ys ih =>
    intro s ids t y hmem l hl r hr
    rcases List.mem_cons.mp hmem with rfl | hmem
    · simp only [runSeasons]
      refine runSeasons_ids_mono env ys _ _ _ r.PERSON_ID ?_
      simp only [processSeason, hl, Finset.mem_union, List.mem_toFinset, List.mem_map]
      exact Or.inr ⟨r, hr, rfl⟩
    · simp only [runSeasons]
      exact ih _ _ _ y hmem l hl r hr

theorem runSeasons_ids_src (env : Env) :
    ∀ (ys : List Nat) (s : RosterStore) (ids : Finset Nat) (t : Nat) (pid : Nat),
      pid ∈ (runSeasons env ys s ids t).ids →
      pid ∈ ids ∨ ∃ y ∈ ys, ∃ l, env.listPlayers y = some l ∧ ∃ r ∈ l, r.PERSON_ID = pid := by
  intro ys
  induction ys with
  | nil => intro s ids t pid h; exact Or.inl h
  | cons y ys ih =>
    intro s ids t pid h
    simp only [runSeasons] at h
    rcases ih _ _ _ pid h with h2 | ⟨y2, hy2, l, hl, r, hr, rfl⟩
    · cases hl : env.listPlayers y with
      | none =>
        simp only [processSeason, hl] at h2
        exact Or.inl h2
      | some l =>
        simp only [processSeason, hl, Finset.mem_union, List.mem_toFinset, List.mem_map] at h2
        rcases h2 with h2 | ⟨r, hr, rfl⟩
        · exact Or.inl h2
        · exact Or.inr ⟨y, List.mem_cons_self y ys, l, hl, r, hr, rfl⟩
    · exact Or.inr ⟨y2, List.mem_cons_of_mem y hy2, l, hl, r, hr, rfl⟩

theorem processPlayers_mono (env : Env) :
    ∀ (ps : List Nat) (s : PlayerStore) (c : Counters) (t : Nat) (k : Nat)
      (v : List CareerRow), lookupKey k s = some v →
      lookupKey k (processPlayers env ps s c t).store = some v := by
  intro ps
  induction ps with
  | nil => intro s c t k v h; simpa [processPlayers] using h
  | cons p ps ih =>
    intro s c t k v h
    cases hp : (lookupKey p s).isSome with
    | true => simpa only [processPlayers, hp, if_true] using ih s _ t k v h
    | false =>
      cases hr : env.careerStats p with
      | some rows =>
        simp only [processPlayers, hp, Bool.false_eq_true, if_false, hr]
        exact ih _ _ _ k v (lookupKey_mono_append k s _ v h)
      | none =>
        simp only [processPlayers, hp, Bool.false_eq_true, if_false, hr]
        exact ih s _ t k v h

theorem processPlayers_lookup_new (env : Env) :
    ∀ (ps : List Nat) (s : PlayerStore) (c : Counters) (t : Nat) (p : Nat)
      (rec : List CareerRow), lookupKey p s = none →
      lookupKey p (processPlayers env ps s c t).store = some rec →
      ∃ rows, env.careerStats p = some rows ∧ rec = filterCareer rows := by
  intro ps
  induction ps with
  | nil =>
    intro s c t p rec h0 h1
    simp only [processPlayers] at h1
    rw [h0] at h1
    exact absurd h1 (by simp)
  | cons q ps ih =>
    intro s c t p rec h0 h1
    cases hp : (lookupKey q s).isSome with
    | true =>
      simp only [processPlayers, hp, if_true] at h1
      exact ih s _ t p rec h0 h1
    | false =>
      cases hr : env.careerStats q with
      | some rows =>
        simp only [processPlayers, hp, Bool.false_eq_true, if_false, hr] at h1
        by_cases hpq : q = p
        · subst hpq
          have hself : lookupKey q (s ++ [(q, filterCareer rows)]) = some (filterCareer rows) :=
            lookupKey_append_self q s _ h0
          have := processPlayers_mono env ps (s ++ [(q, filterCareer rows)])
            { c with saved := c.saved + 1 } (t + 7) q (filterCareer rows) hself
          rw [this] at h1
          exact ⟨rows, hr, (Option.some_inj.mp h1).symm⟩
        · have h0b : lookupKey p (s ++ [(q, filterCareer rows)]) = none := by
            rw [lookupKey_append_other p q s _ hpq]
            exact h0
          exact ih _ _ _ p rec h0b h1
      | none =>
        simp only [processPlayers, hp, Bool.false_eq_true, if_false, hr] at h1
        exact ih s _ t p rec h0 h1

theorem errUnits_cons_skip (t p : Nat) (tr : List TEv) :
    errUnits ((t, Ev.skipP p) :: tr) = errUnits tr := rfl

theorem errUnits_cons_saved (t p : Nat) (tr : List TEv) :
    errUnits ((t, Ev.career p true) :: tr) = errUnits tr := rfl

theorem errUnits_cons_err (t p : Nat) (tr : List TEv) :
    errUnits ((t, Ev.career p false) :: tr) = p :: errUnits tr := rfl

theorem isNone_false_of_isSome {α : Type} {x : Option α} (h : x.isSome = true) :
    x.isNone = false := by
  cases x
  · simp at h
  · rfl

theorem isNone_true_of_not_isSome {α : Type} {x : Option α} (h : x.isSome = false) :
    x.isNone = true := by
  cases x
  · rfl
  · simp at h

theorem processPlayers_errUnits (env : Env) :
    ∀ (ps : List Nat) (s : PlayerStore) (c : Counters) (t : Nat),
      errUnits (processPlayers env ps s c t).trace =
        ps.filter (fun q => (lookupKey q s).isNone && (env.careerStats q).isNone) := by
  intro ps
  induction ps with
  | nil => intro s c t; rfl
  | cons q ps ih =>
    intro s c t
    cases hp : (lookupKey q s).isSome with
    | true =>
      have hn := isNone_false_of_isSome hp
      simp only [processPlayers, hp, if_true, errUnits_cons_skip]
      rw [ih s _ t, List.filter_cons]
      simp [hn]
    | false =>
      have hn := isNone_true_of_not_isSome hp
      cases hr : env.careerStats q with
      | some rows =>
        have hrn : (env.careerStats q).isNone = false := by rw [hr]; rfl
        simp only [processPlayers, hp, Bool.false_eq_true, if_false, hr, errUnits_cons_saved]
        rw [ih _ _ _, List.filter_cons]
        simp only [hn, hrn, Bool.and_false, Bool.false_eq_true, if_false]
        refine List.filter_congr ?_
        intro a _
        by_cases hqa : q = a
        · subst hqa
          have hq0 : lookupKey q s = none := Option.eq_none_of_isNone hn
          rw [lookupKey_append_self q s _ hq0, hq0, hr]
          simp
        · rw [lookupKey_append_other a q s _ hqa]
      | none =>
        have hrn : (env.careerStats q).isNone = true := by rw [hr]; rfl
        simp only [processPlayers, hp, Bool.false_eq_true, if_false, hr, errUnits_cons_err]
        rw [ih s _ t, List.filter_cons]
        simp [hn, hrn]

end Crawl

namespace Crawl

theorem processPlayers_counters (env : Env) :
    ∀ (ps : List Nat) (s : PlayerStore) (c : Counters) (t : Nat),
      (processPlayers env ps s c t).counters =
        ⟨c.saved + savedEvs (processPlayers env ps s c t).trace,
         c.skipped + skipEvs (processPlayers env ps s c t).trace,
         c.errors + errEvs (processPlayers env ps s c t).trace⟩ := by
  intro ps
  induction ps with
  | nil =>
    intro s c t
    simp [processPlayers, savedEvs, skipEvs, errEvs]
  | cons q ps ih =>
    intro s c t
    cases hp : (lookupKey q s).isSome with
    | true =>
      simp only [processPlayers, hp, if_true]
      rw [ih s { c with skipped := c.skipped + 1 } t]
      simp only [savedEvs, skipEvs, errEvs, List.countP_cons, Counters.mk.injEq]
      refine ⟨by simp, by simp; omega, by simp⟩
    | false =>
      cases hr : env.careerStats q with
      | some rows =>
        simp only [processPlayers, hp, Bool.false_eq_true, if_false, hr]
        rw [ih _ { c with saved := c.saved + 1 } _]
        simp only [savedEvs, skipEvs, errEvs, List.countP_cons, Counters.mk.injEq]
        refine ⟨by simp; omega, by simp, by simp⟩
      | none =>
        simp only [processPlayers, hp, Bool.false_eq_true, if_false, hr]
        rw [ih s { c with errors := c.errors + 1 } t]
        simp only [savedEvs, skipEvs, errEvs, List.countP_cons, Counters.mk.injEq]
        refine ⟨by simp, by simp, by simp; omega⟩

theorem processPlayers_events_len (env : Env) :
    ∀ (ps : List Nat) (s : PlayerStore) (c : Counters) (t : Nat),
      savedEvs (processPlayers env ps s c t).trace +
        skipEvs (processPlayers env ps s c t).trace +
        errEvs (processPlayers env ps s c t).trace = ps.length := by
  intro ps
  induction ps with
  | nil => intro s c t; rfl
  | cons q ps ih =>
    intro s c t
    cases hp : (lookupKey q s).isSome with
    | true =>
      simp only [processPlayers, hp, if_true, savedEvs, skipEvs, errEvs, List.countP_cons]
      have := ih s { c with skipped := c.skipped + 1 } t
      simp only [savedEvs, skipEvs, errEvs] at this
      simp only [List.length_cons]
      simp
      omega
    | false =>
      cases hr : env.careerStats q with
      | some rows =>
        simp only [processPlayers, hp, Bool.false_eq_true, if_false, hr, savedEvs, skipEvs,
          errEvs, List.countP_cons]
        have := ih (s ++ [(q, filterCareer rows)]) { c with saved := c.saved + 1 } (t + 7)
        simp only [savedEvs, skipEvs, errEvs] at this
        simp only [List.length_cons]
        simp
        omega
      | none =>
        simp only [processPlayers, hp, Bool.false_eq_true, if_false, hr, savedEvs, skipEvs,
          errEvs, List.countP_cons]
        have := ih s { c with errors := c.errors + 1 } t
        simp only [savedEvs, skipEvs, errEvs] at this
        simp only [List.length_cons]
        simp
        omega

theorem processPlayers_attempted (env : Env) :
    ∀ (ps : List Nat) (s : PlayerStore) (c : Counters) (t : Nat) (q : Nat), q ∈ ps →
      ∃ te ∈ (processPlayers env ps s c t).trace, eventUnit te.2 = some q := by
  intro ps
  induction ps with
  | nil => intro s c t q h; simp at h
  | cons p ps ih =>
    intro s c t q hq
    rcases List.mem_cons.mp hq with rfl | hq
    · cases hp : (lookupKey q s).isSome with
      | true =>
        refine ⟨(t, Ev.skipP q), ?_, rfl⟩
        simp only [processPlayers, hp, if_true, List.mem_cons]
        exact Or.inl trivial
      | false =>
        cases hr : env.careerStats q with
        | some rows =>
          refine ⟨(t, Ev.career q true), ?_, rfl⟩
          simp only [processPlayers, hp, Bool.false_eq_true, if_false, hr, List.mem_cons]
          exact Or.inl trivial
        | none =>
          refine ⟨(t, Ev.career q false), ?_, rfl⟩
          simp only [processPlayers, hp, Bool.false_eq_true, if_false, hr, List.mem_cons]
          exact Or.inl trivial
    · cases hp : (lookupKey p s).isSome with
      | true =>
        obtain ⟨te, hte, hu⟩ := ih s { c with skipped := c.skipped + 1 } t q hq
        refine ⟨te, ?_, hu⟩
        simp only [processPlayers, hp, if_true, List.mem_cons]
        exact Or.inr hte
      | false =>
        cases hr : env.careerStats p with
        | some rows =>
          obtain ⟨te, hte, hu⟩ :=
            ih (s ++ [(p, filterCareer rows)]) { c with saved := c.saved + 1 } (t + 7) q hq
          refine ⟨te, ?_, hu⟩
          simp only [processPlayers, hp, Bool.false_eq_true, if_false, hr, List.mem_cons]
          exact Or.inr hte
        | none =>
          obtain ⟨te, hte, hu⟩ := ih s { c with errors := c.errors + 1 } t q hq
          refine ⟨te, ?_, hu⟩
          simp only [processPlayers, hp, Bool.false_eq_true, if_false, hr, List.mem_cons]
          exact Or.inr hte

theorem lookupKey_addEntry (m : List (Nat × String)) (e : RosterEntry) (p : Nat) :
    lookupKey p (addEntry m e) = (lookupKey p m).or (entryHit p e) := by
  cases hid : e.PLAYER_ID with
  | none => simp [addEntry, entryHit, hid, Option.or_none]
  | some pid =>
    cases hnm : e.PLAYER with
    | none => simp [addEntry, entryHit, hid, hnm, Option.or_none]
    | some nm =>
      by_cases hc : pid ≠ 0 ∧ nm ≠ ""
      · by_cases hpp : pid = p
        · subst hpp
          cases hm : lookupKey pid m with
          | some v =>
            have hms : (lookupKey pid m).isSome := by rw [hm]; rfl
            simp [addEntry, entryHit, hid, hnm, hc, hms, hm, Option.or]
          | none =>
            have hms : (lookupKey pid m).isSome = false := by rw [hm]; rfl
            simp only [addEntry, entryHit, hid, hnm, if_pos hc, hms, Bool.false_eq_true,
              if_false, hm, Option.isSome_none]
            rw [lookupKey_append_self pid m nm hm]
            simp [hc.1, hc.2]
        · have hhit : entryHit p e = none := by
            simp [entryHit, hid, hnm]
            intro _ _ h
            exact absurd h hpp
          rw [hhit, Option.or_none]
          cases hm : (lookupKey pid m).isSome with
          | true => simp [addEntry, hid, hnm, hc, hm]
          | false =>
            simp only [addEntry, hid, hnm, if_pos hc, hm, Bool.false_eq_true, if_false]
            exact lookupKey_append_other p pid m nm hpp
      · have hhit : entryHit p e = none := by
          simp only [entryHit, hid, hnm]
          rw [if_neg]
          intro ⟨h1, h2, _⟩
          exact hc ⟨h1, h2⟩
        simp [addEntry, hid, hnm, hc, hhit, Option.or_none]

theorem foldl_addEntry_lookup :
    ∀ (l : List RosterEntry) (m : List (Nat × String)) (p : Nat),
      lookupKey p (l.foldl addEntry m) = (lookupKey p m).or (l.findSome? (entryHit p)) := by
  intro l
  induction l with
  | nil => intro m p; simp [Option.or_none]
  | cons e l ih =>
    intro m p
    rw [List.foldl_cons, ih (addEntry m e) p, lookupKey_addEntry, Option.or_assoc]
    congr 1
    rw [List.findSome?_cons]
    cases entryHit p e <;> rfl

theorem playerNames_foldl_lookup :
    ∀ (records : List (List RosterEntry)) (m : List (Nat × String)) (p : Nat),
      lookupKey p (records.foldl (fun acc roster => roster.foldl addEntry acc) m) =
        (lookupKey p m).or (records.flatten.findSome? (entryHit p)) := by
  intro records
  induction records with
  | nil => intro m p; simp [Option.or_none]
  | cons r records ih =>
    intro m p
    rw [List.foldl_cons, ih (r.foldl addEntry m) p, foldl_addEntry_lookup, Option.or_assoc]
    congr 1
    rw [List.flatten_cons, List.findSome?_append]

theorem playerNames_lookup (records : List (List RosterEntry)) (p : Nat) :
    lookupKey p (playerNames records) = firstEncounteredName records p := by
  rw [playerNames, firstEncounteredName, playerNames_foldl_lookup records [] p]
  rfl

end Crawl

namespace Crawl

theorem processPlayers_clock_ge (env : Env) :
    ∀ (ps : List Nat) (s : PlayerStore) (c : Counters) (t : Nat),
      t ≤ (processPlayers env ps s c t).clock := by
  intro ps
  induction ps with
  | nil => intro s c t; exact Nat.le_refl t
  | cons p ps ih =>
    intro s c t
    cases hp : (lookupKey p s).isSome with
    | true => simpa only [processPlayers, hp, if_true] using ih s _ t
    | false =>
      cases hr : env.careerStats p with
      | some rows =>
        simp only [processPlayers, hp, Bool.false_eq_true, if_false, hr]
        exact Nat.le_trans (Nat.le_add_right t 7) (ih _ _ (t + 7))
      | none => simpa only [processPlayers, hp, Bool.false_eq_true, if_false, hr] using ih s _ t

theorem processPlayers_trace_times (env : Env) :
    ∀ (ps : List Nat) (s : PlayerStore) (c : Counters) (t : Nat),
      ∀ te ∈ (processPlayers env ps s c t).trace, t ≤ te.1 := by
  intro ps
  induction ps with
  | nil => intro s c t te h; simp [processPlayers] at h
  | cons p ps ih =>
    intro s c t te h
    cases hp : (lookupKey p s).isSome with
    | true =>
      simp only [processPlayers, hp, if_true, List.mem_cons] at h
      rcases h with rfl | h
      · exact Nat.le_refl t
      · exact ih s _ t te h
    | false =>
      cases hr : env.careerStats p with
      | some rows =>
        simp only [processPlayers, hp, Bool.false_eq_true, if_false, hr, List.mem_cons] at h
        rcases h with rfl | h
        · exact Nat.le_refl t
        · exact Nat.le_trans (Nat.le_add_right t 7) (ih _ _ (t + 7) te h)
      | none =>
        simp only [processPlayers, hp, Bool.false_eq_true, if_false, hr, List.mem_cons] at h
        rcases h with rfl | h
        · exact Nat.le_refl t
        · exact ih s _ t te h

theorem processPlayers_head_time (env : Env) :
    ∀ (ps : List Nat) (s : PlayerStore) (c : Counters) (t : Nat) (te : TEv),
      (processPlayers env ps s c t).trace.head? = some te → te.1 = t := by
  intro ps
  cases ps with
  | nil => intro s c t te h; simp [processPlayers] at h
  | cons p ps =>
    intro s c t te h
    cases hp : (lookupKey p s).isSome with
    | true =>
      simp only [processPlayers, hp, if_true, List.head?_cons] at h
      rw [← Option.some_inj.mp h]
    | false =>
      cases hr : env.careerStats p with
      | some rows =>
        simp only [processPlayers, hp, Bool.false_eq_true, if_false, hr, List.head?_cons] at h
        rw [← Option.some_inj.mp h]
      | none =>
        simp only [processPlayers, hp, Bool.false_eq_true, if_false, hr, List.head?_cons] at h
        rw [← Option.some_inj.mp h]

theorem processPlayers_clock_of_trace_nil (env : Env) :
    ∀ (ps : List Nat) (s : PlayerStore) (c : Counters) (t : Nat),
      (processPlayers env ps s c t).trace = [] → (processPlayers env ps s c t).clock = t := by
  intro ps
  cases ps with
  | nil => intro s c t _; rfl
  | cons p ps =>
    intro s c t h
    exfalso
    cases hp : (lookupKey p s).isSome with
    | true => simp only [processPlayers, hp, if_true] at h; exact List.cons_ne_nil _ _ h
    | false =>
      cases hr : env.careerStats p with
      | some rows =>
        simp only [processPlayers, hp, Bool.false_eq_true, if_false, hr] at h
        exact List.cons_ne_nil _ _ h
      | none =>
        simp only [processPlayers, hp, Bool.false_eq_true, if_false, hr] at h
        exact List.cons_ne_nil _ _ h

theorem processPlayers_last_time (env : Env) :
    ∀ (ps : List Nat) (s : PlayerStore) (c : Counters) (t : Nat) (te : TEv),
      (processPlayers env ps s c t).trace.getLast? = some te →
      te.1 + evStep te.2 = (processPlayers env ps s c t).clock := by
  intro ps
  induction ps with
  | nil => intro s c t te h; simp [processPlayers] at h
  | cons p ps ih =>
    intro s c t te h
    cases hp : (lookupKey p s).isSome with
    | true =>
      simp only [processPlayers, hp, if_true] at h ⊢
      cases htr : (processPlayers env ps s { c with skipped := c.skipped + 1 } t).trace with
      | nil =>
        rw [htr] at h
        simp only [List.getLast?_singleton, Option.some_inj] at h
        rw [← h]
        exact (processPlayers_clock_of_trace_nil env ps s _ t htr).symm
      | cons a l =>
        rw [htr] at h
        rw [List.getLast?_cons_cons] at h
        rw [← htr] at h
        exact ih s _ t te h
    | false =>
      cases hr : env.careerStats p with
      | some rows =>
        simp only [processPlayers, hp, Bool.false_eq_true, if_false, hr] at h ⊢
        cases htr : (processPlayers env ps (s ++ [(p, filterCareer rows)])
            { c with saved := c.saved + 1 } (t + 7)).trace with
        | nil =>
          rw [htr] at h
          simp only [List.getLast?_singleton, Option.some_inj] at h
          rw [← h]
          exact (processPlayers_clock_of_trace_nil env ps _ _ (t + 7) htr).symm
        | cons a l =>
          rw [htr] at h
          rw [List.getLast?_cons_cons] at h
          rw [← htr] at h
          exact ih _ _ (t + 7) te h
      | none =>
        simp only [processPlayers, hp, Bool.false_eq_true, if_false, hr] at h ⊢
        cases htr : (processPlayers env ps s { c with errors := c.errors + 1 } t).trace with
        | nil =>
          rw [htr] at h
          simp only [List.getLast?_singleton, Option.some_inj] at h
          rw [← h]
          exact (processPlayers_clock_of_trace_nil env ps s _ t htr).symm
        | cons a l =>
          rw [htr] at h
          rw [List.getLast?_cons_cons] at h
          rw [← htr] at h
          exact ih s _ t te h

theorem okTimes_ge {tr : List TEv} {t u : Nat} (f : TEv → Option Nat)
    (hf : ∀ te : TEv, ∀ v, f te = some v → v = te.1)
    (htimes : ∀ te ∈ tr, t ≤ te.1) (hu : u ∈ tr.filterMap f) : t ≤ u := by
  obtain ⟨te, hte, hfe⟩ := List.mem_filterMap.mp hu
  rw [hf te u hfe]
  exact htimes te hte

theorem careerOkTimes_val (te : TEv) (v : Nat)
    (h : (match te.2 with | Ev.career _ true => some te.1 | _ => none) = some v) :
    v = te.1 := by
  rcases te with ⟨u, e⟩
  cases e with
  | career p ok => cases ok with
    | true => exact (Option.some_inj.mp h).symm
    | false => simp at h
  | listing y ok => simp at h
  | roster tm y ok => simp at h
  | skipR tm y => simp at h
  | skipP p => simp at h
  | report a b c => simp at h

theorem processPlayers_ok_step (env : Env) :
    ∀ (ps : List Nat) (s : PlayerStore) (c : Counters) (t : Nat),
      ∀ u ∈ careerOkTimes (processPlayers env ps s c t).trace,
        u + 7 ≤ (processPlayers env ps s c t).clock := by
  intro ps
  induction ps with
  | nil => intro s c t u h; simp [processPlayers, careerOkTimes] at h
  | cons p ps ih =>
    intro s c t u h
    cases hp : (lookupKey p s).isSome with
    | true =>
      simp only [processPlayers, hp, if_true] at h ⊢
      simp only [careerOkTimes, List.filterMap_cons] at h
      exact ih s _ t u h
    | false =>
      cases hr : env.careerStats p with
      | some rows =>
        simp only [processPlayers, hp, Bool.false_eq_true, if_false, hr] at h ⊢
        simp only [careerOkTimes, List.filterMap_cons] at h
        simp only [List.mem_cons] at h
        rcases h with h | h
        · have hc7 := processPlayers_clock_ge env ps (s ++ [(p, filterCareer rows)])
            { c with saved := c.saved + 1 } (t + 7)
          omega
        · exact ih _ _ (t + 7) u h
      | none =>
        simp only [processPlayers, hp, Bool.false_eq_true, if_false, hr] at h ⊢
        simp only [careerOkTimes, List.filterMap_cons] at h
        exact ih s _ t u h

theorem processPlayers_ok_chain (env : Env) :
    ∀ (ps : List Nat) (s : PlayerStore) (c : Counters) (t : Nat),
      List.Chain' (fun a b => a + 7 ≤ b)
        (careerOkTimes (processPlayers env ps s c t).trace) := by
  intro ps
  induction ps with
  | nil => intro s c t; simp [processPlayers, careerOkTimes]
  | cons p ps ih =>
    intro s c t
    cases hp : (lookupKey p s).isSome with
    | true =>
      simp only [processPlayers, hp, if_true, careerOkTimes, List.filterMap_cons]
      exact ih s _ t
    | false =>
      cases hr : env.careerStats p with
      | some rows =>
        simp only [processPlayers, hp, Bool.false_eq_true, if_false, hr, careerOkTimes,
          List.filterMap_cons]
        rw [List.chain'_cons']
        constructor
        · intro b hb
          refine okTimes_ge _ careerOkTimes_val
            (processPlayers_trace_times env ps _ _ (t + 7)) (List.mem_of_mem_head? hb)
        · exact ih _ _ (t + 7)
      | none =>
        simp only [processPlayers, hp, Bool.false_eq_true, if_false, hr, careerOkTimes,
          List.filterMap_cons]
        exact ih s _ t

theorem processPlayers_step_chain (env : Env) :
    ∀ (ps : List Nat) (s : PlayerStore) (c : Counters) (t : Nat),
      List.Chain' stepRel (processPlayers env ps s c t).trace := by
  intro ps
  induction ps with
  | nil => intro s c t; simp [processPlayers]
  | cons p ps ih =>
    intro s c t
    cases hp : (lookupKey p s).isSome with
    | true =>
      simp only [processPlayers, hp, if_true]
      rw [List.chain'_cons']
      refine ⟨?_, ih s _ t⟩
      intro b hb
      have hbt := processPlayers_head_time env ps s _ t b (Option.mem_def.mp hb)
      exact ⟨by rw [hbt]; simp [evStep], fun _ => hbt⟩
    | false =>
      cases hr : env.careerStats p with
      | some rows =>
        simp only [processPlayers, hp, Bool.false_eq_true, if_false, hr]
        rw [List.chain'_cons']
        refine ⟨?_, ih _ _ (t + 7)⟩
        intro b hb
        have hbt := processPlayers_head_time env ps _ _ (t + 7) b (Option.mem_def.mp hb)
        refine ⟨by rw [hbt]; simp [evStep], ?_⟩
        intro hsk
        simp [isSkipEv] at hsk
      | none =>
        simp only [processPlayers, hp, Bool.false_eq_true, if_false, hr]
        rw [List.chain'_cons']
        refine ⟨?_, ih s _ t⟩
        intro b hb
        have hbt := processPlayers_head_time env ps s _ t b (Option.mem_def.mp hb)
        refine ⟨by rw [hbt]; simp [evStep], ?_⟩
        intro hsk
        simp [isSkipEv] at hsk

theorem fetchPlayerData_ok_chain (env : Env) (ps : List Nat) (s : PlayerStore) (t : Nat) :
    List.Chain' (fun a b => a + 7 ≤ b)
      (careerOkTimes (fetchPlayerData env ps s t).trace) := by
  simp only [fetchPlayerData, careerOkTimes, List.filterMap_append]
  simp only [List.filterMap_cons, List.filterMap_nil, List.append_nil]
  exact processPlayers_ok_chain env ps s ⟨0, 0, 0⟩ t

theorem fetchPlayerData_step_chain (env : Env) (ps : List Nat) (s : PlayerStore) (t : Nat) :
    List.Chain' stepRel (fetchPlayerData env ps s t).trace := by
  simp only [fetchPlayerData]
  rw [List.chain'_append]
  refine ⟨processPlayers_step_chain env ps s ⟨0, 0, 0⟩ t, List.chain'_singleton _, ?_⟩
  intro x hx y hy
  simp only [List.head?_cons, Option.mem_def, Option.some_inj] at hy
  have hlast := processPlayers_last_time env ps s ⟨0, 0, 0⟩ t x (Option.mem_def.mp hx)
  subst hy
  constructor
  · simp only
    omega
  · intro hsk
    simp only
    have : evStep x.2 = 0 := by
      rcases x with ⟨u, e⟩
      cases e <;> simp [isSkipEv] at hsk <;> rfl
    omega

end Crawl

namespace Crawl

theorem processTeams_clock_ge (env : Env) (year : Nat) :
    ∀ (ts : List Nat) (s : RosterStore) (t : Nat),
      t ≤ (processTeams env year ts s t).clock := by
  intro ts
  induction ts with
  | nil => intro s t; exact Nat.le_refl t
  | cons tm ts ih =>
    intro s t
    cases hp : (lookupKey (tm, year) s).isSome with
    | true => simpa only [processTeams, hp, if_true] using ih s t
    | false =>
      cases hr : env.teamRoster tm year with
      | some roster =>
        simp only [processTeams, hp, Bool.false_eq_true, if_false, hr]
        exact Nat.le_trans (Nat.le_add_right t 8) (ih _ (t + 8))
      | none => simpa only [processTeams, hp, Bool.false_eq_true, if_false, hr] using ih s t

theorem processTeams_trace_times (env : Env) (year : Nat) :
    ∀ (ts : List Nat) (s : RosterStore) (t : Nat),
      ∀ te ∈ (processTeams env year ts s t).trace, t ≤ te.1 := by
  intro ts
  induction ts with
  | nil => intro s t te h; simp [processTeams] at h
  | cons tm ts ih =>
    intro s t te h
    cases hp : (lookupKey (tm, year) s).isSome with
    | true =>
      simp only [processTeams, hp, if_true, List.mem_cons] at h
      rcases h with rfl | h
      · exact Nat.le_refl t
      · exact ih s t te h
    | false =>
      cases hr : env.teamRoster tm year with
      | some roster =>
        simp only [processTeams, hp, Bool.false_eq_true, if_false, hr, List.mem_cons] at h
        rcases h with rfl | h
        · exact Nat.le_refl t
        · exact Nat.le_trans (Nat.le_add_right t 8) (ih _ (t + 8) te h)
      | none =>
        simp only [processTeams, hp, Bool.false_eq_true, if_false, hr, List.mem_cons] at h
        rcases h with rfl | h
        · exact Nat.le_refl t
        · exact ih s t te h

theorem processTeams_head_time (env : Env) (year : Nat) :
    ∀ (ts : List Nat) (s : RosterStore) (t : Nat) (te : TEv),
      (processTeams env year ts s t).trace.head? = some te → te.1 = t := by
  intro ts
  cases ts with
  | nil => intro s t te h; simp [processTeams] at h
  | cons tm ts =>
    intro s t te h
    cases hp : (lookupKey (tm, year) s).isSome with
    | true =>
      simp only [processTeams, hp, if_true, List.head?_cons] at h
      rw [← Option.some_inj.mp h]
    | false =>
      cases hr : env.teamRoster tm year with
      | some roster =>
        simp only [processTeams, hp, Bool.false_eq_true, if_false, hr, List.head?_cons] at h
        rw [← Option.some_inj.mp h]
      | none =>
        simp only [processTeams, hp, Bool.false_eq_true, if_false, hr, List.head?_cons] at h
        rw [← Option.some_inj.mp h]

theorem processTeams_clock_of_trace_nil (env : Env) (year : Nat) :
    ∀ (ts : List Nat) (s : RosterStore) (t : Nat),
      (processTeams env year ts s t).trace = [] → (processTeams env year ts s t).clock = t := by
  intro ts
  cases ts with
  | nil => intro s t _; rfl
  | cons tm ts =>
    intro s t h
    exfalso
    cases hp : (lookupKey (tm, year) s).isSome with
    | true => simp only [processTeams, hp, if_true] at h; exact List.cons_ne_nil _ _ h
    | false =>
      cases hr : env.teamRoster tm year with
      | some roster =>
        simp only [processTeams, hp, Bool.false_eq_true, if_false, hr] at h
        exact List.cons_ne_nil _ _ h
      | none =>
        simp only [processTeams, hp, Bool.false_eq_true, if_false, hr] at h
        exact List.cons_ne_nil _ _ h

theorem processTeams_last_time (env : Env) (year : Nat) :
    ∀ (ts : List Nat) (s : RosterStore) (t : Nat) (te : TEv),
      (processTeams env year ts s t).trace.getLast? = some te →
      te.1 + evStep te.2 = (processTeams env year ts s t).clock := by
  intro ts
  induction ts with
  | nil => intro s t te h; simp [processTeams] at h
  | cons tm ts ih =>
    intro s t te h
    cases hp : (lookupKey (tm, year) s).isSome with
    | true =>
      simp only [processTeams, hp, if_true] at h ⊢
      cases htr : (processTeams env year ts s t).trace with
      | nil =>
        rw [htr] at h
        simp only [List.getLast?_singleton, Option.some_inj] at h
        rw [← h]
        exact (processTeams_clock_of_trace_nil env year ts s t htr).symm
      | cons a l =>
        rw [htr, List.getLast?_cons_cons, ← htr] at h
        exact ih s t te h
    | false =>
      cases hr : env.teamRoster tm year with
      | some roster =>
        simp only [processTeams, hp, Bool.false_eq_true, if_false, hr] at h ⊢
        cases htr : (processTeams env year ts (s ++ [((tm, year), roster)]) (t + 8)).trace with
        | nil =>
          rw [htr] at h
          simp only [List.getLast?_singleton, Option.some_inj] at h
          rw [← h]
          exact (processTeams_clock_of_trace_nil env year ts _ (t + 8) htr).symm
        | cons a l =>
          rw [htr, List.getLast?_cons_cons, ← htr] at h
          exact ih _ (t + 8) te h
      | none =>
        simp only [processTeams, hp, Bool.false_eq_true, if_false, hr] at h ⊢
        cases htr : (processTeams env year ts s t).trace with
        | nil =>
          rw [htr] at h
          simp only [List.getLast?_singleton, Option.some_inj] at h
          rw [← h]
          exact (processTeams_clock_of_trace_nil env year ts s t htr).symm
        | cons a l =>
          rw [htr, List.getLast?_cons_cons, ← htr] at h
          exact ih s t te h

theorem rosterOkTimes_val (te : TEv) (v : Nat)
    (h : (match te.2 with | Ev.roster _ _ true => some te.1 | _ => none) = some v) :
    v = te.1 := by
  rcases te with ⟨u, e⟩
  cases e with
  | roster tm y ok => cases ok with
    | true => exact (Option.some_inj.mp h).symm
    | false => simp at h
  | listing y ok => simp at h
  | career p ok => simp at h
  | skipR tm y => simp at h
  | skipP p => simp at h
  | report a b c => simp at h

theorem processTeams_ok_step (env : Env) (year : Nat) :
    ∀ (ts : List Nat) (s : RosterStore) (t : Nat),
      ∀ u ∈ rosterOkTimes (processTeams env year ts s t).trace,
        u + 8 ≤ (processTeams env year ts s t).clock := by
  intro ts
  induction ts with
  | nil => intro s t u h; simp [processTeams, rosterOkTimes] at h
  | cons tm ts ih =>
    intro s t u h
    cases hp : (lookupKey (tm, year) s).isSome with
    | true =>
      simp only [processTeams, hp, if_true] at h ⊢
      simp only [rosterOkTimes, List.filterMap_cons] at h
      exact ih s t u h
    | false =>
      cases hr : env.teamRoster tm year with
      | some roster =>
        simp only [processTeams, hp, Bool.false_eq_true, if_false, hr] at h ⊢
        simp only [rosterOkTimes, List.filterMap_cons] at h
        simp only [List.mem_cons] at h
        rcases h with h | h
        · have hc8 := processTeams_clock_ge env year ts (s ++ [((tm, year), roster)]) (t + 8)
          omega
        · exact ih _ (t + 8) u h
      | none =>
        simp only [processTeams, hp, Bool.false_eq_true, if_false, hr] at h ⊢
        simp only [rosterOkTimes, List.filterMap_cons] at h
        exact ih s t u h

theorem processTeams_ok_chain (env : Env) (year : Nat) :
    ∀ (ts : List Nat) (s : RosterStore) (t : Nat),
      List.Chain' (fun a b => a + 8 ≤ b)
        (rosterOkTimes (processTeams env year ts s t).trace) := by
  intro ts
  induction ts with
  | nil => intro s t; simp [processTeams, rosterOkTimes]
  | cons tm ts ih =>
    intro s t
    cases hp : (lookupKey (tm, year) s).isSome with
    | true =>
      simp only [processTeams, hp, if_true, rosterOkTimes, List.filterMap_cons]
      exact ih s t
    | false =>
      cases hr : env.teamRoster tm year with
      | some roster =>
        simp only [processTeams, hp, Bool.false_eq_true, if_false, hr, rosterOkTimes,
          List.filterMap_cons]
        rw [List.chain'_cons']
        constructor
        · intro b hb
          exact okTimes_ge _ rosterOkTimes_val
            (processTeams_trace_times env year ts _ (t + 8)) (List.mem_of_mem_head? hb)
        · exact ih _ (t + 8)
      | none =>
        simp only [processTeams, hp, Bool.false_eq_true, if_false, hr, rosterOkTimes,
          List.filterMap_cons]
        exact ih s t

theorem processTeams_step_chain (env : Env) (year : Nat) :
    ∀ (ts : List Nat) (s : RosterStore) (t : Nat),
      List.Chain' stepRel (processTeams env year ts s t).trace := by
  intro ts
  induction ts with
  | nil => intro s t; simp [processTeams]
  | cons tm ts ih =>
    intro s t
    cases hp : (lookupKey (tm, year) s).isSome with
    | true =>
      simp only [processTeams, hp, if_true]
      rw [List.chain'_cons']
      refine ⟨?_, ih s t⟩
      intro b hb
      have hbt := processTeams_head_time env year ts s t b (Option.mem_def.mp hb)
      exact ⟨by rw [hbt]; simp [evStep], fun _ => hbt⟩
    | false =>
      cases hr : env.teamRoster tm year with
      | some roster =>
        simp only [processTeams, hp, Bool.false_eq_true, if_false, hr]
        rw [List.chain'_cons']
        refine ⟨?_, ih _ (t + 8)⟩
        intro b hb
        have hbt := processTeams_head_time env year ts _ (t + 8) b (Option.mem_def.mp hb)
        refine ⟨by rw [hbt]; simp [evStep], ?_⟩
        intro hsk
        simp [isSkipEv] at hsk
      | none =>
        simp only [processTeams, hp, Bool.false_eq_true, if_false, hr]
        rw [List.chain'_cons']
        refine ⟨?_, ih s t⟩
        intro b hb
        have hbt := processTeams_head_time env year ts s t b (Option.mem_def.mp hb)
        refine ⟨by rw [hbt]; simp [evStep], ?_⟩
        intro hsk
        simp [isSkipEv] at hsk

end Crawl

namespace Crawl

theorem processSeason_clock_ge (env : Env) (y : Nat) (s : RosterStore) (ids : Finset Nat)
    (t : Nat) : t ≤ (processSeason env y s ids t).clock := by
  cases hl : env.listPlayers y with
  | none => simp [processSeason, hl]
  | some l =>
    simp only [processSeason, hl]
    exact processTeams_clock_ge env y (seasonTeams l) s t

theorem processSeason_trace_times (env : Env) (y : Nat) (s : RosterStore) (ids : Finset Nat)
    (t : Nat) : ∀ te ∈ (processSeason env y s ids t).trace, t ≤ te.1 := by
  intro te h
  cases hl : env.listPlayers y with
  | none =>
    simp only [processSeason, hl, List.mem_singleton] at h
    subst h
    exact Nat.le_refl t
  | some l =>
    simp only [processSeason, hl, List.mem_cons] at h
    rcases h with rfl | h
    · exact Nat.le_refl t
    · exact processTeams_trace_times env y (seasonTeams l) s t te h

theorem processSeason_trace_ne_nil (env : Env) (y : Nat) (s : RosterStore) (ids : Finset Nat)
    (t : Nat) : (processSeason env y s ids t).trace ≠ [] := by
  cases hl : env.listPlayers y with
  | none => simp [processSeason, hl]
  | some l => simp [processSeason, hl]

theorem processSeason_head_time (env : Env) (y : Nat) (s : RosterStore) (ids : Finset Nat)
    (t : Nat) (te : TEv) (h : (processSeason env y s ids t).trace.head? = some te) :
    te.1 = t := by
  cases hl : env.listPlayers y with
  | none =>
    simp only [processSeason, hl, List.head?_cons, Option.some_inj] at h
    rw [← h]
  | some l =>
    simp only [processSeason, hl, List.head?_cons, Option.some_inj] at h
    rw [← h]

theorem processSeason_last_time (env : Env) (y : Nat) (s : RosterStore) (ids : Finset Nat)
    (t : Nat) (te : TEv) (h : (processSeason env y s ids t).trace.getLast? = some te) :
    te.1 + evStep te.2 = (processSeason env y s ids t).clock := by
  cases hl : env.listPlayers y with
  | none =>
    simp only [processSeason, hl, List.getLast?_singleton, Option.some_inj] at h
    rw [← h]
    simp [processSeason, hl, evStep]
  | some l =>
    simp only [processSeason, hl] at h ⊢
    cases htr : (processTeams env y (seasonTeams l) s t).trace with
    | nil =>
      rw [htr] at h
      simp only [List.getLast?_singleton, Option.some_inj] at h
      rw [← h]
      simp only [evStep, Nat.add_zero]
      exact (processTeams_clock_of_trace_nil env y (seasonTeams l) s t htr).symm
    | cons a l2 =>
      rw [htr, List.getLast?_cons_cons, ← htr] at h
      exact processTeams_last_time env y (seasonTeams l) s t te h

theorem processSeason_ok_step (env : Env) (y : Nat) (s : RosterStore) (ids : Finset Nat)
    (t : Nat) : ∀ u ∈ rosterOkTimes (processSeason env y s ids t).trace,
      u + 8 ≤ (processSeason env y s ids t).clock := by
  intro u h
  cases hl : env.listPlayers y with
  | none => simp [processSeason, hl, rosterOkTimes] at h
  | some l =>
    simp only [processSeason, hl, rosterOkTimes, List.filterMap_cons] at h ⊢
    exact processTeams_ok_step env y (seasonTeams l) s t u h

theorem processSeason_ok_chain (env : Env) (y : Nat) (s : RosterStore) (ids : Finset Nat)
    (t : Nat) : List.Chain' (fun a b => a + 8 ≤ b)
      (rosterOkTimes (processSeason env y s ids t).trace) := by
  cases hl : env.listPlayers y with
  | none => simp [processSeason, hl, rosterOkTimes]
  | some l =>
    simp only [processSeason, hl, rosterOkTimes, List.filterMap_cons]
    exact processTeams_ok_chain env y (seasonTeams l) s t

theorem processSeason_step_chain (env : Env) (y : Nat) (s : RosterStore) (ids : Finset Nat)
    (t : Nat) : List.Chain' stepRel (processSeason env y s ids t).trace := by
  cases hl : env.listPlayers y with
  | none => simp [processSeason, hl]
  | some l =>
    simp only [processSeason, hl]
    rw [List.chain'_cons']
    refine ⟨?_, processTeams_step_chain env y (seasonTeams l) s t⟩
    intro b hb
    have hbt := processTeams_head_time env y (seasonTeams l) s t b (Option.mem_def.mp hb)
    refine ⟨by rw [hbt]; simp [evStep], ?_⟩
    intro hsk
    simp [isSkipEv] at hsk

theorem runSeasons_clock_ge (env : Env) :
    ∀ (ys : List Nat) (s : RosterStore) (ids : Finset Nat) (t : Nat),
      t ≤ (runSeasons env ys s ids t).clock := by
  intro ys
  induction ys with
  | nil => intro s ids t; exact Nat.le_refl t
  | cons y ys ih =>
    intro s ids t
    simp only [runSeasons]
    exact Nat.le_trans (processSeason_clock_ge env y s ids t) (ih _ _ _)

theorem runSeasons_trace_times (env : Env) :
    ∀ (ys : List Nat) (s : RosterStore) (ids : Finset Nat) (t : Nat),
      ∀ te ∈ (runSeasons env ys s ids t).trace, t ≤ te.1 := by
  intro ys
  induction ys with
  | nil => intro s ids t te h; simp [runSeasons] at h
  | cons y ys ih =>
    intro s ids t te h
    simp only [runSeasons, List.mem_append] at h
    rcases h with h | h
    · exact processSeason_trace_times env y s ids t te h
    · exact Nat.le_trans (processSeason_clock_ge env y s ids t) (ih _ _ _ te h)

theorem runSeasons_head_time (env : Env) :
    ∀ (ys : List Nat) (s : RosterStore) (ids : Finset Nat) (t : Nat) (te : TEv),
      (runSeasons env ys s ids t).trace.head? = some te → te.1 = t := by
  intro ys
  cases ys with
  | nil => intro s ids t te h; simp [runSeasons] at h
  | cons y ys =>
    intro s ids t te h
    simp only [runSeasons, List.head?_append] at h
    cases h1 : (processSeason env y s ids t).trace.head? with
    | some te1 =>
      rw [h1] at h
      have : te1 = te := Option.some_inj.mp h
      subst this
      exact processSeason_head_time env y s ids t te1 h1
    | none =>
      exfalso
      have := processSeason_trace_ne_nil env y s ids t
      cases htr : (processSeason env y s ids t).trace with
      | nil => exact this htr
      | cons a l => rw [htr] at h1; simp at h1

theorem runSeasons_clock_of_trace_nil (env : Env) :
    ∀ (ys : List Nat) (s : RosterStore) (ids : Finset Nat) (t : Nat),
      (runSeasons env ys s ids t).trace = [] → (runSeasons env ys s ids t).clock = t := by
  intro ys
  cases ys with
  | nil => intro s ids t _; rfl
  | cons y ys =>
    intro s ids t h
    exfalso
    simp only [runSeasons, List.append_eq_nil] at h
    exact processSeason_trace_ne_nil env y s ids t h.1

theorem runSeasons_last_time (env : Env) :
    ∀ (ys : List Nat) (s : RosterStore) (ids : Finset Nat) (t : Nat) (te : TEv),
      (runSeasons env ys s ids t).trace.getLast? = some te →
      te.1 + evStep te.2 = (runSeasons env ys s ids t).clock := by
  intro ys
  induction ys with
  | nil => intro s ids t te h; simp [runSeasons] at h
  | cons y ys ih =>
    intro s ids t te h
    simp only [runSeasons] at h ⊢
    cases htr2 : (runSeasons env ys (processSeason env y s ids t).store
        (processSeason env y s ids t).ids (processSeason env y s ids t).clock).trace with
    | nil =>
      rw [htr2, List.append_nil] at h
      have h1 := processSeason_last_time env y s ids t te h
      have h2 := runSeasons_clock_of_trace_nil env ys _ _ _ htr2
      rw [h2, h1]
    | cons a l =>
      rw [htr2, List.getLast?_append_cons, ← htr2] at h
      exact ih _ _ _ te h

theorem runSeasons_ok_step (env : Env) :
    ∀ (ys : List Nat) (s : RosterStore) (ids : Finset Nat) (t : Nat),
      ∀ u ∈ rosterOkTimes (runSeasons env ys s ids t).trace,
        u + 8 ≤ (runSeasons env ys s ids t).clock := by
  intro ys
  induction ys with
  | nil => intro s ids t u h; simp [runSeasons, rosterOkTimes] at h
  | cons y ys ih =>
    intro s ids t u h
    simp only [runSeasons, rosterOkTimes, List.filterMap_append, List.mem_append] at h ⊢
    rcases h with h | h
    · exact Nat.le_trans (processSeason_ok_step env y s ids t u h)
        (runSeasons_clock_ge env ys _ _ _)
    · exact ih _ _ _ u h

theorem runSeasons_ok_chain (env : Env) :
    ∀ (ys : List Nat) (s : RosterStore) (ids : Finset Nat) (t : Nat),
      List.Chain' (fun a b => a + 8 ≤ b)
        (rosterOkTimes (runSeasons env ys s ids t).trace) := by
  intro ys
  induction ys with
  | nil => intro s ids t; simp [runSeasons, rosterOkTimes]
  | cons y ys ih =>
    intro s ids t
    simp only [runSeasons, rosterOkTimes, List.filterMap_append]
    rw [List.chain'_append]
    refine ⟨?_, ?_, ?_⟩
    · have := processSeason_ok_chain env y s ids t
      simpa only [rosterOkTimes] using this
    · have := ih (processSeason env y s ids t).store (processSeason env y s ids t).ids
        (processSeason env y s ids t).clock
      simpa only [rosterOkTimes] using this
    · intro x hx u hu
      have hx2 : x ∈ rosterOkTimes (processSeason env y s ids t).trace :=
        List.mem_of_mem_getLast? hx
      have h1 := processSeason_ok_step env y s ids t x hx2
      have hu2 : u ∈ rosterOkTimes (runSeasons env ys (processSeason env y s ids t).store
          (processSeason env y s ids t).ids (processSeason env y s ids t).clock).trace :=
        List.mem_of_mem_head? hu
      have h2 : (processSeason env y s ids t).clock ≤ u :=
        okTimes_ge _ rosterOkTimes_val (runSeasons_trace_times env ys _ _ _) hu2
      omega

theorem runSeasons_step_chain (env : Env) :
    ∀ (ys : List Nat) (s : RosterStore) (ids : Finset Nat) (t : Nat),
      List.Chain' stepRel (runSeasons env ys s ids t).trace := by
  intro ys
  induction ys with
  | nil => intro s ids t; simp [runSeasons]
  | cons y ys ih =>
    intro s ids t
    simp only [runSeasons]
    rw [List.chain'_append]
    refine ⟨processSeason_step_chain env y s ids t, ih _ _ _, ?_⟩
    intro x hx b hb
    have h1 := processSeason_last_time env y s ids t x (Option.mem_def.mp hx)
    have h2 := runSeasons_head_time env ys _ _ _ b (Option.mem_def.mp hb)
    constructor
    · omega
    · intro hsk
      have : evStep x.2 = 0 := by
        rcases x with ⟨u, e⟩
        cases e <;> simp [isSkipEv] at hsk <;> rfl
      omega

end Crawl

namespace Crawl

theorem exists_of_findSome {α β : Type} (f : α → Option β) :
    ∀ (l : List α) (b : β), l.findSome? f = some b → ∃ a ∈ l, f a = some b := by
  intro l
  induction l with
  | nil => intro b h; simp [List.findSome?_nil] at h
  | cons a l ih =>
    intro b h
    rw [List.findSome?_cons] at h
    cases hfa : f a with
    | some v =>
      rw [hfa] at h
      exact ⟨a, List.mem_cons_self a l, by rw [hfa, Option.some_inj.mp h]⟩
    | none =>
      rw [hfa] at h
      obtain ⟨a2, ha2, hf2⟩ := ih b h
      exact ⟨a2, List.mem_cons_of_mem a ha2, hf2⟩

theorem filter_eq_singleton_of_unique :
    ∀ (l : List Nat) (p : Nat) (f : Nat → Bool), l.Nodup → p ∈ l → f p = true →
      (∀ q ∈ l, q ≠ p → f q = false) → l.filter f = [p] := by
  intro l
  induction l with
  | nil => intro p f _ hp; simp at hp
  | cons a l ih =>
    intro p f hn hp hfp hother
    rcases List.mem_cons.mp hp with rfl | hp2
    · rw [List.filter_cons, if_pos hfp]
      have hnil : l.filter f = [] := by
        rw [List.filter_eq_nil_iff]
        intro q hq
        have hqp : q ≠ p := by
          rintro rfl
          exact (List.nodup_cons.mp hn).1 hq
        rw [hother q (List.mem_cons_of_mem p hq) hqp]
        simp
      rw [hnil]
    · have hap : a ≠ p := by
        rintro rfl
        exact (List.nodup_cons.mp hn).1 hp2
      have ha : f a = false := hother a (List.mem_cons_self a l) hap
      rw [List.filter_cons, if_neg (by simp [ha])]
      exact ih p f (List.nodup_cons.mp hn).2 hp2 hfp
        (fun q hq hqp => hother q (List.mem_cons_of_mem a hq) hqp)

theorem errEvs_eq_errUnits_length : ∀ (tr : List TEv), errEvs tr = (errUnits tr).length := by
  intro tr
  induction tr with
  | nil => rfl
  | cons te tr ih =>
    rcases te with ⟨u, e⟩
    cases e with
    | career p ok =>
      cases ok with
      | true => simpa [errEvs, errUnits, List.countP_cons, List.filterMap_cons] using ih
      | false =>
        simp only [errEvs, errUnits, List.countP_cons, List.filterMap_cons] at ih ⊢
        simp [ih]
    | listing y ok => simpa [errEvs, errUnits, List.countP_cons, List.filterMap_cons] using ih
    | roster tm y ok => simpa [errEvs, errUnits, List.countP_cons, List.filterMap_cons] using ih
    | skipR tm y => simpa [errEvs, errUnits, List.countP_cons, List.filterMap_cons] using ih
    | skipP p => simpa [errEvs, errUnits, List.countP_cons, List.filterMap_cons] using ih
    | report a b c => simpa [errEvs, errUnits, List.countP_cons, List.filterMap_cons] using ih

/-- Claim C1, corrected part: the second run over the same year range is not free
of external fetch calls — with every provider call succeeding and an empty
initial store, the run over the single season 2025 followed by a rerun on
the resulting store still issues an external call (the per-season listing
fetch) on the second run. -/
theorem c1_counterexample :
    ¬ externCalls (fetchTeamRosters envE 2025 2025
        (fetchTeamRosters envE 2025 2025 [] 0).store
        (fetchTeamRosters envE 2025 2025 [] 0).clock).trace = 0 := by decide

/-- Claim C1, amended: when every team-roster call of the provider succeeds,
rerunning the roster harvester over the same year range on the store left
by the first run changes nothing in the store and issues zero roster
fetch calls; the per-season listing calls are still issued. -/
theorem c1_second_run (env : Env) (a c : Nat) (s : RosterStore) (t : Nat)
    (h : ∀ tm y, (env.teamRoster tm y).isSome) :
    (fetchTeamRosters env a c (fetchTeamRosters env a c s t).store
        (fetchTeamRosters env a c s t).clock).store = (fetchTeamRosters env a c s t).store ∧
    rosterCalls (fetchTeamRosters env a c (fetchTeamRosters env a c s t).store
        (fetchTeamRosters env a c s t).clock).trace = 0 := by
  simp only [fetchTeamRosters]
  constructor
  · apply runSeasons_noop
    intro y hy l hl tm htm _
    exact runSeasons_complete env _ s ∅ t y hy l hl tm htm (h tm y)
  · apply runSeasons_nocalls
    intro y hy l hl tm htm
    exact runSeasons_complete env _ s ∅ t y hy l hl tm htm (h tm y)

theorem c1_witness :
    (fetchTeamRosters envE 2025 2025 (fetchTeamRosters envE 2025 2025 [] 0).store
        (fetchTeamRosters envE 2025 2025 [] 0).clock).store =
      (fetchTeamRosters envE 2025 2025 [] 0).store ∧
    rosterCalls (fetchTeamRosters envE 2025 2025 (fetchTeamRosters envE 2025 2025 [] 0).store
        (fetchTeamRosters envE 2025 2025 [] 0).clock).trace = 0 :=
  c1_second_run envE 2025 2025 [] 0 (fun _ _ => rfl)

/-- Claim C2: if, among the player ids handed to the player harvester, exactly
the unit `p` fails (its provider call raises and it is not already
stored, while every other unit either succeeds or is already stored),
then every unit still gets processed (each id has a skip or fetch event
in the trace), the failed units of the run are exactly `[p]`, and the
end-of-run report counts exactly one error. -/
theorem c2_error_isolation (env : Env) (ids : List Nat) (s : PlayerStore) (t : Nat) (p : Nat)
    (h1 : ids.Nodup) (h2 : p ∈ ids) (h3 : env.careerStats p = none)
    (h4 : lookupKey p s = none)
    (h5 : ∀ q ∈ ids, q ≠ p → (env.careerStats q).isSome = true ∨ (lookupKey q s).isSome = true) :
    (∀ q ∈ ids, ∃ te ∈ (fetchPlayerData env ids s t).trace, eventUnit te.2 = some q) ∧
    errUnits (fetchPlayerData env ids s t).trace = [p] ∧
    (∃ sv sk, (fetchPlayerData env ids s t).trace.getLast? =
      some ((fetchPlayerData env ids s t).clock, Ev.report sv sk 1)) := by
  have hfilter : ids.filter
      (fun q => (lookupKey q s).isNone && (env.careerStats q).isNone) = [p] := by
    apply filter_eq_singleton_of_unique ids p _ h1 h2
    · rw [h4, h3]
      rfl
    · intro q hq hqp
      rcases h5 q hq hqp with h | h
      · rw [isNone_false_of_isSome h]
        simp
      · rw [isNone_false_of_isSome h]
        simp
  have herr : errUnits (processPlayers env ids s ⟨0, 0, 0⟩ t).trace = [p] := by
    rw [processPlayers_errUnits env ids s ⟨0, 0, 0⟩ t]
    exact hfilter
  refine ⟨?_, ?_, ?_⟩
  · intro q hq
    obtain ⟨te, hte, hu⟩ := processPlayers_attempted env ids s ⟨0, 0, 0⟩ t q hq
    exact ⟨te, List.mem_append_left _ hte, hu⟩
  · show errUnits ((processPlayers env ids s ⟨0, 0, 0⟩ t).trace ++ _) = [p]
    rw [errUnits, List.filterMap_append]
    rw [errUnits] at herr
    rw [herr]
    rfl
  · refine ⟨(processPlayers env ids s ⟨0, 0, 0⟩ t).counters.saved,
      (processPlayers env ids s ⟨0, 0, 0⟩ t).counters.skipped, ?_⟩
    show ((processPlayers env ids s ⟨0, 0, 0⟩ t).trace ++ _).getLast? = _
    rw [List.getLast?_concat]
    have hc := processPlayers_counters env ids s ⟨0, 0, 0⟩ t
    have he : (processPlayers env ids s ⟨0, 0, 0⟩ t).counters.errors = 1 := by
      rw [hc]
      show 0 + errEvs (processPlayers env ids s ⟨0, 0, 0⟩ t).trace = 1
      rw [errEvs_eq_errUnits_length, herr]
      rfl
    rw [he]
    rfl

theorem c2_witness :
    (∀ q ∈ [5, 9, 6], ∃ te ∈ (fetchPlayerData envW [5, 9, 6] [] 0).trace,
      eventUnit te.2 = some q) ∧
    errUnits (fetchPlayerData envW [5, 9, 6] [] 0).trace = [9] ∧
    (∃ sv sk, (fetchPlayerData envW [5, 9, 6] [] 0).trace.getLast? =
      some ((fetchPlayerData envW [5, 9, 6] [] 0).clock, Ev.report sv sk 1)) :=
  c2_error_isolation envW [5, 9, 6] [] 0 9 (by decide) (by decide) (by decide) rfl
    (by decide)

/-- Claim C3: for any season inside the harvested range whose full-player
listing succeeds, every PERSON_ID of that listing ends up in the returned
identifier set; conversely every returned identifier comes from the
listing of some season in the range whose listing succeeded. -/
theorem c3_ids_union (env : Env) (a c : Nat) (s : RosterStore) (t : Nat) (y : Nat)
    (hy1 : a ≤ y) (hy2 : y ≤ c) (l : List PlayerRow) (hl : env.listPlayers y = some l) :
    (∀ r ∈ l, r.PERSON_ID ∈ (fetchTeamRosters env a c s t).ids) ∧
    (∀ pid ∈ (fetchTeamRosters env a c s t).ids, ∃ y2, a ≤ y2 ∧ y2 ≤ c ∧
      ∃ l2, env.listPlayers y2 = some l2 ∧ ∃ r ∈ l2, r.PERSON_ID = pid) := by
  have hmem : y ∈ List.range' a (c + 1 - a) := by
    rw [List.mem_range'_1]
    exact ⟨hy1, by omega⟩
  constructor
  · intro r hr
    simp only [fetchTeamRosters]
    exact runSeasons_ids_of_mem env _ s ∅ t y hmem l hl r hr
  · intro pid hpid
    simp only [fetchTeamRosters] at hpid
    rcases runSeasons_ids_src env _ s ∅ t pid hpid with h0 | ⟨y2, hy2m, l2, hl2, r, hr, hpr⟩
    · simp at h0
    · rw [List.mem_range'_1] at hy2m
      obtain ⟨hm1, hm2⟩ := hy2m
      exact ⟨y2, hm1, by omega, l2, hl2, r, hr, hpr⟩

theorem c3_witness :
    (∀ r ∈ [(⟨1, 10⟩ : PlayerRow)], r.PERSON_ID ∈ (fetchTeamRosters envW 2025 2025 [] 0).ids) ∧
    (∀ pid ∈ (fetchTeamRosters envW 2025 2025 [] 0).ids, ∃ y2, 2025 ≤ y2 ∧ y2 ≤ 2025 ∧
      ∃ l2, envW.listPlayers y2 = some l2 ∧ ∃ r ∈ l2, r.PERSON_ID = pid) :=
  c3_ids_union envW 2025 2025 [] 0 2025 (Nat.le_refl 2025) (Nat.le_refl 2025) [⟨1, 10⟩] rfl

/-- Claim C4, corrected part: it is not the case that all consecutive
successful external fetches of the roster harvester are separated by the
0.8s minimum interval — with one season whose listing succeeds and one
team to fetch, the successful listing fetch and the successful roster
fetch that follows it happen at the same instant (no pause follows a
listing fetch). -/
theorem c4_counterexample :
    ¬ List.Chain' (fun u v => u + 8 ≤ v)
      (fetchOkTimes (fetchTeamRosters envW 2025 2025 [] 0).trace) := by
  intro h
  have he : fetchOkTimes (fetchTeamRosters envW 2025 2025 [] 0).trace = [0, 0] := by decide
  rw [he, List.chain'_cons] at h
  omega

/-- Claim C4, amended: consecutive successful roster fetches are separated by
at least 0.8s and consecutive successful career fetches by at least
0.7s; along each trace the clock never advances by less than the pause
the previous event mandates, and a skip lets no time pass at all (a skip
never incurs a pause).  Only the per-season listing fetch is exempt: no
pause follows it. -/
theorem c4_rate_limit (env : Env) (a c : Nat) (s : RosterStore) (t : Nat) (ids : List Nat)
    (ps : PlayerStore) (t2 : Nat) :
    List.Chain' (fun u v => u + 8 ≤ v) (rosterOkTimes (fetchTeamRosters env a c s t).trace) ∧
    List.Chain' (fun u v => u + 7 ≤ v) (careerOkTimes (fetchPlayerData env ids ps t2).trace) ∧
    List.Chain' stepRel (fetchTeamRosters env a c s t).trace ∧
    List.Chain' stepRel (fetchPlayerData env ids ps t2).trace :=
  ⟨by simp only [fetchTeamRosters]; exact runSeasons_ok_chain env _ s ∅ t,
   fetchPlayerData_ok_chain env ids ps t2,
   by simp only [fetchTeamRosters]; exact runSeasons_step_chain env _ s ∅ t,
   fetchPlayerData_step_chain env ids ps t2⟩

/-- Claim C5, corrected part: the player harvester does not return the final
counters to its caller — the Python function has no return statement, so
its return value is None. -/
theorem c5_counterexample : (fetchPlayerData envW [5] [] 0).ret = none := rfl

/-- Claim C5, amended: the player harvester returns no value (None); the final
counts of saved, skipped and errored units appear only in the end-of-run
summary it prints, and those reported counts are correct: they equal the
tallies of save, skip and error events of the run and add up to the
number of units processed. -/
theorem c5_reported_counters (env : Env) (ids : List Nat) (s : PlayerStore) (t : Nat) :
    (fetchPlayerData env ids s t).ret = none ∧
    ∃ sv sk er,
      (fetchPlayerData env ids s t).trace.getLast? =
        some ((fetchPlayerData env ids s t).clock, Ev.report sv sk er) ∧
      sv = savedEvs (fetchPlayerData env ids s t).trace ∧
      sk = skipEvs (fetchPlayerData env ids s t).trace ∧
      er = errEvs (fetchPlayerData env ids s t).trace ∧
      sv + sk + er = ids.length := by
  refine ⟨rfl, (processPlayers env ids s ⟨0, 0, 0⟩ t).counters.saved,
    (processPlayers env ids s ⟨0, 0, 0⟩ t).counters.skipped,
    (processPlayers env ids s ⟨0, 0, 0⟩ t).counters.errors, ?_, ?_, ?_, ?_, ?_⟩
  · show ((processPlayers env ids s ⟨0, 0, 0⟩ t).trace ++ _).getLast? = _
    rw [List.getLast?_concat]
    rfl
  all_goals {
    have hc := processPlayers_counters env ids s ⟨0, 0, 0⟩ t
    have hlen := processPlayers_events_len env ids s ⟨0, 0, 0⟩ t
    have hsv : savedEvs (fetchPlayerData env ids s t).trace =
        savedEvs (processPlayers env ids s ⟨0, 0, 0⟩ t).trace := by
      show savedEvs ((processPlayers env ids s ⟨0, 0, 0⟩ t).trace ++ _) = _
      rw [savedEvs, List.countP_append]
      simp [savedEvs]
    have hsk : skipEvs (fetchPlayerData env ids s t).trace =
        skipEvs (processPlayers env ids s ⟨0, 0, 0⟩ t).trace := by
      show skipEvs ((processPlayers env ids s ⟨0, 0, 0⟩ t).trace ++ _) = _
      rw [skipEvs, List.countP_append]
      simp [skipEvs]
    have her : errEvs (fetchPlayerData env ids s t).trace =
        errEvs (processPlayers env ids s ⟨0, 0, 0⟩ t).trace := by
      show errEvs ((processPlayers env ids s ⟨0, 0, 0⟩ t).trace ++ _) = _
      rw [errEvs, List.countP_append]
      simp [errEvs]
    rw [hc] at *
    simp only [hsv, hsk, her]
    omega
  }

/-- Claim C6: any record newly stored by the player harvester is the fetched
career record with its TOT rows dropped: it contains no row whose team
abbreviation is the multi-team sentinel, it is a subsequence of the
fetched rows (original order preserved), and every non-TOT row keeps its
exact multiplicity. -/
theorem c6_filtered_record (env : Env) (ids : List Nat) (s : PlayerStore) (t : Nat) (p : Nat)
    (rows rec : List CareerRow) (h0 : lookupKey p s = none)
    (h1 : env.careerStats p = some rows)
    (h2 : lookupKey p (fetchPlayerData env ids s t).store = some rec) :
    (∀ r ∈ rec, r.TEAM_ABBREVIATION ≠ "TOT") ∧ rec.Sublist rows ∧
    (∀ r : CareerRow, r.TEAM_ABBREVIATION ≠ "TOT" → rec.count r = rows.count r) := by
  have h2b : lookupKey p (processPlayers env ids s ⟨0, 0, 0⟩ t).store = some rec := h2
  obtain ⟨rows2, hr2, hrec⟩ := processPlayers_lookup_new env ids s ⟨0, 0, 0⟩ t p rec h0 h2b
  rw [h1] at hr2
  obtain rfl : rows = rows2 := Option.some_inj.mp hr2
  subst hrec
  refine ⟨?_, List.filter_sublist rows, ?_⟩
  · intro r hr
    have := List.mem_filter.mp hr
    simpa using this.2
  · intro r hrT
    apply List.count_filter
    simp [hrT]

theorem c6_witness :
    (∀ r ∈ [(⟨"LAL", 2⟩ : CareerRow)], r.TEAM_ABBREVIATION ≠ "TOT") ∧
    List.Sublist [(⟨"LAL", 2⟩ : CareerRow)] [⟨"TOT", 1⟩, ⟨"LAL", 2⟩] ∧
    (∀ r : CareerRow, r.TEAM_ABBREVIATION ≠ "TOT" →
      List.count r [(⟨"LAL", 2⟩ : CareerRow)] = List.count r [⟨"TOT", 1⟩, ⟨"LAL", 2⟩]) :=
  c6_filtered_record envW [5] [] 0 5 [⟨"TOT", 1⟩, ⟨"LAL", 2⟩] [⟨"LAL", 2⟩]
    rfl (by decide) (by decide)

/-- Claim C7: the roster harvester never emits a fetch event for the sentinel
team id 0, never touches any store key with team id 0, and the team ids
derived from any season listing are deduplicated and free of the
sentinel. -/
theorem c7_sentinel (env : Env) (a c : Nat) (s : RosterStore) (t : Nat) (te : TEv)
    (hte : te ∈ (fetchTeamRosters env a c s t).trace) (l : List PlayerRow) :
    (∀ y2 ok, te.2 ≠ Ev.roster 0 y2 ok) ∧
    (∀ y2, lookupKey (0, y2) (fetchTeamRosters env a c s t).store = lookupKey (0, y2) s) ∧
    (seasonTeams l).Nodup ∧ 0 ∉ seasonTeams l := by
  refine ⟨?_, ?_, seasonTeams_nodup l, fun h => seasonTeams_ne_zero l 0 h rfl⟩
  · intro y2 ok
    simp only [fetchTeamRosters] at hte
    exact runSeasons_no_zero_roster env _ s ∅ t te hte y2 ok
  · intro y2
    simp only [fetchTeamRosters]
    exact runSeasons_zero_frame env _ s ∅ t y2

theorem c7_witness :
    (∀ y2 ok, ((0, Ev.listing 2025 true) : TEv).2 ≠ Ev.roster 0 y2 ok) ∧
    (∀ y2, lookupKey (0, y2) (fetchTeamRosters envW 2025 2025 [] 0).store =
      lookupKey (0, y2) ([] : RosterStore)) ∧
    (seasonTeams [⟨1, 10⟩]).Nodup ∧ 0 ∉ seasonTeams [⟨1, 10⟩] :=
  c7_sentinel envW 2025 2025 [] 0 (0, Ev.listing 2025 true) (by decide) [⟨1, 10⟩]

/-- Claim C8: the index built by the index builder maps each player id to the
name of the first-encountered valid entry for that id across the scan
order (later names are discarded); in particular two records carrying
player id 7 with names A then B yield an index mapping 7 to A. -/
theorem c8_first_write_wins (records : List (List RosterEntry)) (p : Nat) :
    lookupKey p (playerNames records) = firstEncounteredName records p ∧
    lookupKey 7 (playerNames [[⟨some 7, some "A"⟩], [⟨some 7, some "B"⟩]]) = some "A" :=
  ⟨playerNames_lookup records p, by decide⟩

/-- Claim C9: any record already present in either store when a harvester
starts is still present, unchanged, after the run: the harvesters never
overwrite or delete existing roster or career records. -/
theorem c9_store_frame (env : Env) (a c t : Nat) (rs : RosterStore) (ids : List Nat)
    (ps : PlayerStore) (t2 : Nat) (k : Nat × Nat) (v : List RosterEntry) (q : Nat)
    (w : List CareerRow) (h1 : lookupKey k rs = some v) (h2 : lookupKey q ps = some w) :
    lookupKey k (fetchTeamRosters env a c rs t).store = some v ∧
    lookupKey q (fetchPlayerData env ids ps t2).store = some w := by
  constructor
  · simp only [fetchTeamRosters]
    exact runSeasons_mono env _ rs ∅ t k v h1
  · show lookupKey q (processPlayers env ids ps ⟨0, 0, 0⟩ t2).store = some w
    exact processPlayers_mono env ids ps ⟨0, 0, 0⟩ t2 q w h2

theorem c9_witness :
    lookupKey (1, 2025) (fetchTeamRosters envW 2025 2025 [((1, 2025), [])] 0).store =
      some [] ∧
    lookupKey 5 (fetchPlayerData envW [5] [(5, [])] 0).store = some [] :=
  c9_store_frame envW 2025 2025 0 [((1, 2025), [])] [5] [(5, [])] 0 (1, 2025) [] 5 []
    (by decide) (by decide)

/-- Claim C10: an entry contributes to the built index only when both its
player id and its name are present and truthy: any id found as a key of
the index is nonzero, its name is nonempty, and some scanned entry
carries exactly that id and name. -/
theorem c10_truthy_entries (records : List (List RosterEntry)) (p : Nat) (s : String)
    (h : lookupKey p (playerNames records) = some s) :
    p ≠ 0 ∧ s ≠ "" ∧ ∃ e ∈ records.flatten, e.PLAYER_ID = some p ∧ e.PLAYER = some s := by
  rw [playerNames_lookup, firstEncounteredName] at h
  obtain ⟨e, he, hhit⟩ := exists_of_findSome (entryHit p) records.flatten s h
  rcases hid : e.PLAYER_ID with _ | pid
  · rw [entryHit, hid] at hhit
    simp at hhit
  · rcases hnm : e.PLAYER with _ | nm
    · rw [entryHit, hid, hnm] at hhit
      simp at hhit
    · simp only [entryHit, hid, hnm] at hhit
      by_cases hc : pid ≠ 0 ∧ nm ≠ "" ∧ pid = p
      · rw [if_pos hc] at hhit
        obtain rfl : nm = s := Option.some_inj.mp hhit
        obtain ⟨hc1, hc2, rfl⟩ := hc
        exact ⟨hc1, hc2, e, he, hid, hnm⟩
      · rw [if_neg hc] at hhit
        simp at hhit

theorem c10_witness :
    (7 : Nat) ≠ 0 ∧ "A" ≠ "" ∧
    ∃ e ∈ ([[⟨some 7, some "A"⟩]] : List (List RosterEntry)).flatten,
      e.PLAYER_ID = some 7 ∧ e.PLAYER = some "A" :=
  c10_truthy_entries [[⟨some 7, some "A"⟩]] 7 "A" (by decide)

end Crawl
